import Mathlib

/-!
# A shallow embedding of the `dictify_js` parser

This file embeds `src/dictify_js/parser.py` (class `Parser`) and
`src/dictify_js/__init__.py` (`parse_file`) in Lean and proves properties of the
embedding.

Modelling conventions:

* The parser state `(text, index, brace_depth, bracket_depth)` is the structure `St`.
  The input is a `List Char`; `length` is derived.  Python's `self.current` returns the
  empty string `""` at end of input; this is modelled as `Option Char` with `none` for
  the empty string.  Python's membership test `c in "..."`, applied to `self.current`,
  is `pyMem`: the empty string is a substring of every string, so `none` is a member of
  every character set — the code relies on this in several places and the embedding
  reproduces it faithfully.
* The depth counters are `Int` (Python ints); `max 0 (d - 1)` is written literally.
* Number semantics: Python `int(s, base)` and `float(s)` are applied by the code only
  to slices whose shape the scanner has already validated, and on such shapes they
  never raise.  `float` is modelled as the exact decimal rational denoted by the
  literal (`pyFloat : List Char → ℚ`); `Num.int` and `Num.float` keep Python's
  int/float distinction.  Python equality `1 == 1.0` between numeric dict keys is
  modelled by comparing the denoted rationals.
* Loops whose every iteration advances the cursor are embedded as structural
  recursion over the remaining character list; the mutually recursive structure
  parser takes a fuel argument (`none` = fuel exhausted, proved unreachable for
  fuel linear in the input length).
* `Parser._NULL_VALUE`, the sentinel distinguishing a parsed `null` from a failed
  parse, is the extra `Value.sentinel` constructor, so that "the sentinel never
  escapes" is a statement and not a typing triviality.
* Character classes use ASCII semantics (`Char.isDigit` etc.); the sources and the
  specification only treat ASCII input.
-/

namespace DictifyJs

/-- Apostrophe (single quote) character. -/
def squote : Char := Char.ofNat 39

/-- Backtick character. -/
def btick : Char := Char.ofNat 96

/-- Opening curly brace character. -/
def lbrace : Char := Char.ofNat 123

/-- Closing curly brace character. -/
def rbrace : Char := Char.ofNat 125

/-- The whitespace characters of `skip_to_valid`. -/
def wsChars : List Char := [' ', '\t', '\n', '\r']

/-- Python `self.current in s`: `self.current` is `""` at end of input and the empty
string is a substring of every string. -/
def pyMem (c : Option Char) (set : List Char) : Bool :=
  match c with
  | none => true
  | some ch => set.contains ch

/-- Python `self.current == c` for a one-character string `c`. -/
def pyEq (c : Option Char) (ch : Char) : Bool :=
  c = some ch

/-- Python `self.current.isdigit()` (`""` has no digits). -/
def pyIsDigit (c : Option Char) : Bool :=
  match c with
  | none => false
  | some ch => ch.isDigit

/-- Python `self.current.isalpha()`. -/
def pyIsAlpha (c : Option Char) : Bool :=
  match c with
  | none => false
  | some ch => ch.isAlpha

/-! ## Cursor state (`Parser.__init__`, `current`, `end_of_file`, `peek`,
`startswith`, `advance`) -/

/-- The mutable state of a `Parser` instance. -/
structure St where
  text : List Char
  index : Nat
  braceDepth : Int
  bracketDepth : Int
deriving Repr, DecidableEq

def St.length (s : St) : Nat := s.text.length

def St.current (s : St) : Option Char := s.text.get? s.index

def St.endOfFile (s : St) : Bool := s.length ≤ s.index

/-- The input from the cursor position on (`self.text[self.index:]`). -/
def St.remaining (s : St) : List Char := s.text.drop s.index

def St.startswith (s : St) (tok : List Char) : Bool := tok.isPrefixOf s.remaining

def St.advance (s : St) (n : Nat) : St := { s with index := s.index + n }

def St.withIndex (s : St) (i : Nat) : St := { s with index := i }

/-! ## `Parser.skip_to_valid` -/

/-- Length of the run consumed by the `//`-comment loop
(`while not eof and current != '\n'`). -/
def lineRun (l : List Char) : Nat := (l.takeWhile (fun c => !(c == '\n'))).length

/-- Characters consumed by the `/* */` loop: it runs `while index < length - 1`
(at least two characters remaining), stopping just past a `*/`. -/
def blockRun : List Char → Nat
  | a :: b :: t => if a = '*' ∧ b = '/' then 2 else 1 + blockRun (b :: t)
  | _ => 0

/-- `Parser.skip_to_valid`: skip whitespace and `//` and `/* */` comments.  The
outer loop advances at least one character per iteration; `fuel` bounds the number
of iterations (`none` = fuel exhausted). -/
def skip_to_valid : Nat → St → Option St
  | 0, _ => none
  | fuel + 1, s =>
    if s.endOfFile then some s
    else if pyMem s.current wsChars then skip_to_valid fuel (s.advance 1)
    else if s.startswith ['/', '/'] then
      let s1 := s.advance 2
      skip_to_valid fuel (s1.advance (lineRun s1.remaining))
    else if s.startswith ['/', '*'] then
      let s1 := s.advance 2
      skip_to_valid fuel (s1.advance (blockRun s1.remaining))
    else some s

/-! ## `Parser.skip_invalid` -/

/-- The scanning loop of `Parser.skip_invalid`, recursing structurally on the
remaining input.  Arguments mirror the Python locals: local `depth`, `current_quote`,
and the running global `brace_depth` / `bracket_depth`; `startBrace` / `startBracket`
are the entry-time snapshots.  Returns
`(stop character or none, characters consumed, final brace depth, final bracket depth)`.
`self.advance(2)` at a trailing lone backslash pushes the index one past the end of
the input, hence the consumed count `2` in that case. -/
def skip_invalid_loop (stop : List Char) (containerEnd : Option Char)
    (startBrace startBracket : Option Int) :
    List Char → Nat → Option Char → Int → Int → Option Char × Nat × Int × Int
  | [], _, _, brace, bracket => (none, 0, brace, bracket)
  | c :: t, depth, quote, brace, bracket =>
    if c = '\\' then
      match t with
      | [] => (none, 2, brace, bracket)
      | _ :: t2 =>
        let r := skip_invalid_loop stop containerEnd startBrace startBracket t2 depth quote brace bracket
        (r.1, r.2.1 + 2, r.2.2)
    else
      match quote with
      | some qc =>
        let r := skip_invalid_loop stop containerEnd startBrace startBracket t depth
          (if c = qc then none else some qc) brace bracket
        (r.1, r.2.1 + 1, r.2.2)
      | none =>
        if c = '"' ∨ c = squote ∨ c = btick then
          let r := skip_invalid_loop stop containerEnd startBrace startBracket t depth (some c) brace bracket
          (r.1, r.2.1 + 1, r.2.2)
        else if c = lbrace ∨ c = '[' ∨ c = '(' then
          let brace' := if c = lbrace then brace + 1 else brace
          let bracket' := if c = '[' then bracket + 1 else bracket
          let r := skip_invalid_loop stop containerEnd startBrace startBracket t (depth + 1) none brace' bracket'
          (r.1, r.2.1 + 1, r.2.2)
        else if c = rbrace ∨ c = ']' ∨ c = ')' then
          let brace' := if c = rbrace then max 0 (brace - 1) else brace
          let bracket' := if c = ']' then max 0 (bracket - 1) else bracket
          if 0 < depth then
            let r := skip_invalid_loop stop containerEnd startBrace startBracket t (depth - 1) none brace' bracket'
            (r.1, r.2.1 + 1, r.2.2)
          else
            let isContainerClose : Bool :=
              if some c = containerEnd then
                if c = rbrace then
                  match startBrace with
                  | some sb => brace' < sb
                  | none => false
                else if c = ']' then
                  match startBracket with
                  | some sk => bracket' < sk
                  | none => false
                else false
              else false
            if c ∈ stop then
              if some c = containerEnd ∧ isContainerClose = false then
                let r := skip_invalid_loop stop containerEnd startBrace startBracket t depth none brace' bracket'
                (r.1, r.2.1 + 1, r.2.2)
              else (some c, 1, brace', bracket')
            else
              let r := skip_invalid_loop stop containerEnd startBrace startBracket t depth none brace' bracket'
              (r.1, r.2.1 + 1, r.2.2)
        else if depth = 0 ∧ c ∈ stop then (some c, 1, brace, bracket)
        else
          let r := skip_invalid_loop stop containerEnd startBrace startBracket t depth none brace bracket
          (r.1, r.2.1 + 1, r.2.2)

/-- `Parser.skip_invalid`: skip an unsupported construct until a stop character at
the current nesting level.  Returns the stop character found (or `none` at end of
input) and the updated state. -/
def skip_invalid (s : St) (stop : List Char) (containerEnd : Option Char) :
    Option Char × St :=
  let startBrace : Option Int := if containerEnd = some rbrace then some s.braceDepth else none
  let startBracket : Option Int := if containerEnd = some ']' then some s.bracketDepth else none
  let r := skip_invalid_loop stop containerEnd startBrace startBracket s.remaining 0 none
    s.braceDepth s.bracketDepth
  (r.1, { s with index := s.index + r.2.1, braceDepth := r.2.2.1, bracketDepth := r.2.2.2 })

/-! ## `Parser.read_identifier` -/

/-- Characters consumed by the identifier loops
(`while isalnum or in "_$"`). -/
def identRun (l : List Char) : Nat :=
  (l.takeWhile (fun c => c.isAlphanum || c == '_' || c == '$')).length

/-- `Parser.read_identifier`.  At end of input Python's `"" in "_$"` is true and the
function returns the empty string; the embedding reproduces this. -/
def read_identifier (fuel : Nat) (s : St) : Option (Option (List Char) × St) :=
  (skip_to_valid fuel s).bind fun s1 =>
  if pyIsAlpha s1.current || pyMem s1.current ['_', '$'] then
    let n := identRun s1.remaining
    some (some (s1.remaining.take n), s1.advance n)
  else some (none, s1)

/-! ## `Parser.read_string` -/

/-- The escape table of `read_string`; any unrecognized escape maps to the escaped
character itself. -/
def escMap (c : Char) : Char :=
  if c = 'n' then '\n'
  else if c = 't' then '\t'
  else if c = 'r' then '\r'
  else if c = '\\' then '\\'
  else if c = '"' then '"'
  else if c = squote then squote
  else c

/-- The character loop of `read_string`: returns the accumulated value (or `none` if
unterminated) and the number of characters consumed. -/
def read_string_loop (quote : Option Char) :
    List Char → Bool → List Char → Option (List Char) × Nat
  | [], _, _ => (none, 0)
  | c :: t, escape, acc =>
    if escape then
      let r := read_string_loop quote t false (acc ++ [escMap c])
      (r.1, r.2 + 1)
    else if c = '\\' then
      let r := read_string_loop quote t true acc
      (r.1, r.2 + 1)
    else if some c = quote then (some acc, 1)
    else
      let r := read_string_loop quote t escape (acc ++ [c])
      (r.1, r.2 + 1)

/-- `Parser.read_string`. -/
def read_string (s : St) : Option (List Char) × St :=
  let quote := s.current
  if pyMem quote ['"', squote] then
    let r := read_string_loop quote (s.text.drop (s.index + 1)) false []
    (r.1, s.advance (1 + r.2))
  else (none, s)

/-! ## `Parser.read_number` -/

/-- Integer or float, Python's two numeric kinds. -/
inductive Num where
  | int (n : Int)
  | float (q : ℚ)
deriving DecidableEq, Repr

/-- The rational a numeric value denotes (used for Python `==` between keys). -/
def Num.toRat : Num → ℚ
  | .int n => (n : ℚ)
  | .float q => q

def hexDigitChars : List Char := "0123456789abcdefABCDEF".toList

def binDigitChars : List Char := ['0', '1']

def octDigitChars : List Char := "01234567".toList

/-- Length of the run of characters from `set` at the head of `l`. -/
def runIn (set : List Char) (l : List Char) : Nat :=
  (l.takeWhile (fun c => set.contains c)).length

/-- Length of the run of ASCII digits at the head of `l`. -/
def digitRun (l : List Char) : Nat := (l.takeWhile (fun c => c.isDigit)).length

/-- Value of one hexadecimal digit. -/
def hexVal (c : Char) : Nat :=
  if c.isDigit then c.toNat - 48
  else if 'a' ≤ c ∧ c ≤ 'f' then c.toNat - 87
  else if 'A' ≤ c ∧ c ≤ 'F' then c.toNat - 55
  else 0

/-- Value of a digit string in the given base. -/
def digitsVal (base : Nat) (l : List Char) : Nat :=
  l.foldl (fun a c => a * base + hexVal c) 0

/-- Python `int(slice, base)` on slices of shape `-?0[xXbBoO]digits`. -/
def pyIntRadix (base : Nat) : List Char → Int
  | '-' :: t => -(digitsVal base (t.drop 2) : Int)
  | t => (digitsVal base (t.drop 2) : Int)

/-- Python `int(slice)` on slices of shape `-?digits`. -/
def pyIntDec : List Char → Int
  | '-' :: t => -(digitsVal 10 t : Int)
  | t => (digitsVal 10 t : Int)

/-- The exact decimal rational denoted by `digits(.digits)?((e|E)(+|-)?digits)?`:
with integer-part value `i`, fraction digits `f` and exponent `ex`, this is
`(i·10^|f| + value f) · 10^(ex - |f|)`, built with `mkRat` so that it evaluates by
kernel reduction. -/
def decCore (l : List Char) : ℚ :=
  let ip := l.takeWhile (fun c => c.isDigit)
  let rest := l.drop ip.length
  let fp := if rest.head? = some '.' then (rest.drop 1).takeWhile (fun c => c.isDigit) else []
  let rest2 := if rest.head? = some '.' then (rest.drop 1).drop fp.length else rest
  let ex : Int :=
    if rest2.head? = some 'e' ∨ rest2.head? = some 'E' then
      match rest2.drop 1 with
      | '-' :: ds => -(digitsVal 10 ds : Int)
      | '+' :: ds => (digitsVal 10 ds : Int)
      | ds => (digitsVal 10 ds : Int)
    else 0
  let mantissa : Nat := digitsVal 10 ip * 10 ^ fp.length + digitsVal 10 fp
  let e : Int := ex - fp.length
  if 0 ≤ e then mkRat (mantissa * 10 ^ e.toNat) 1 else mkRat mantissa (10 ^ (-e).toNat)

/-- Python `float(slice)` on the slices produced by the decimal branch of
`read_number`, as an exact rational. -/
def pyFloat : List Char → ℚ
  | '-' :: t => -(decCore t)
  | t => decCore t

/-- The scientific-notation block of `read_number` (`if self.current in "eE": ...`),
starting from the state after the integer and fraction parts: consume `e`/`E`, an
optional sign, and the exponent digits; `none` if there are no digits after the `e`
(the caller then restores the index and fails the whole read). -/
def read_number_exp (s3 : St) : Option St :=
  if pyMem s3.current ['e', 'E'] then
    let s4 := s3.advance 1
    let s5 := if pyMem s4.current ['+', '-'] then s4.advance 1 else s4
    let en := digitRun s5.remaining
    if en = 0 then none else some (s5.advance en)
  else some s3

/-- The final step of `read_number`'s decimal branch: fail (restoring the entry
index) when no digit was seen, otherwise slice `text[start:index]` and convert —
`float` if a dot was seen or the slice contains an exponent marker, else `int`. -/
def read_number_fin (s0 : St) (hasDot hasDigit : Bool) (s6 : St) : Option Num × St :=
  if hasDigit then
    let numStr := (s0.text.drop s0.index).take (s6.index - s0.index)
    if hasDot || numStr.contains 'e' || numStr.contains 'E' then
      (some (.float (pyFloat numStr)), s6)
    else (some (.int (pyIntDec numStr)), s6)
  else (none, s0.withIndex s0.index)

/-- `Parser.read_number`.  Faithful to the Python source, including:
the radix branches return `None` without restoring the index when no digit follows
the prefix; and at end of input `self.current` is `""`, so `"" in "eE"` and
`"" in "+-"` are both true, making a plain decimal number that ends exactly at the
end of input fail (the exponent scanner finds no digits and aborts the whole read). -/
def read_number (s : St) : Option Num × St :=
  let start := s.index
  let afterSign : Option St :=
    if pyEq s.current '-' then
      let s1 := s.advance 1
      if s1.endOfFile || !(pyIsDigit s1.current || pyEq s1.current '.') then none
      else some s1
    else some s
  match afterSign with
  | none => (none, s.withIndex start)
  | some s1 =>
    if s1.startswith ['0', 'x'] || s1.startswith ['0', 'X'] then
      let s2 := s1.advance 2
      let n := runIn hexDigitChars s2.remaining
      if 0 < n then
        let s3 := s2.advance n
        (some (.int (pyIntRadix 16 ((s.text.drop start).take (s3.index - start)))), s3)
      else (none, s2)
    else if s1.startswith ['0', 'b'] || s1.startswith ['0', 'B'] then
      let s2 := s1.advance 2
      let n := runIn binDigitChars s2.remaining
      if 0 < n then
        let s3 := s2.advance n
        (some (.int (pyIntRadix 2 ((s.text.drop start).take (s3.index - start)))), s3)
      else (none, s2)
    else if s1.startswith ['0', 'o'] || s1.startswith ['0', 'O'] then
      let s2 := s1.advance 2
      let n := runIn octDigitChars s2.remaining
      if 0 < n then
        let s3 := s2.advance n
        (some (.int (pyIntRadix 8 ((s.text.drop start).take (s3.index - start)))), s3)
      else (none, s2)
    else
      let n1 := digitRun s1.remaining
      let s2 := s1.advance n1
      let hasDot := pyEq s2.current '.'
      let fracN := if hasDot then digitRun (s2.advance 1).remaining else 0
      let s3 := if hasDot then (s2.advance 1).advance fracN else s2
      let hasDigit := 0 < n1 || (hasDot && 0 < fracN)
      match read_number_exp s3 with
      | none => (none, s.withIndex start)
      | some s6 => read_number_fin s hasDot hasDigit s6

/-! ## Values and keys -/

/-- An object key: Python `str`, `int` or `float`. -/
inductive Key where
  | str (s : List Char)
  | num (n : Num)
deriving DecidableEq, Repr

/-- The values the parser builds.  `sentinel` is `Parser._NULL_VALUE`; `null` is
Python `None` as stored in results. -/
inductive Value where
  | str (s : List Char)
  | num (n : Num)
  | bool (b : Bool)
  | null
  | sentinel
  | obj (entries : List (Key × Value))
  | arr (elems : List Value)
deriving Repr

/-- Python `==` on dict keys: strings compare by content, numbers by value
(`1 == 1.0` is true and the two share one dict slot). -/
def Key.pyEqKey : Key → Key → Bool
  | .str x, .str y => x == y
  | .num x, .num y => x.toRat == y.toRat
  | _, _ => false

/-- Python `result[key] = value` on an insertion-ordered dict: overwrite the
existing slot (keeping the originally inserted key and its position) or append. -/
def store (es : List (Key × Value)) (k : Key) (v : Value) : List (Key × Value) :=
  if es.any (fun p => Key.pyEqKey p.1 k) then
    es.map (fun p => if Key.pyEqKey p.1 k then (p.1, v) else p)
  else es ++ [(k, v)]

/-! ## `Parser.read_key` -/

/-- `Parser.read_key`. -/
def read_key (fuel : Nat) (s : St) : Option (Option Key × St) :=
  (skip_to_valid fuel s).bind fun s1 =>
  if pyMem s1.current ['"', squote] then
    let r := read_string s1
    some (r.1.map Key.str, r.2)
  else if pyEq s1.current '[' then some (none, s1)
  else if pyIsDigit s1.current then
    let r := read_number s1
    some (r.1.map Key.num, r.2)
  else if pyIsAlpha s1.current || pyMem s1.current ['_', '$'] then
    let n := identRun s1.remaining
    some (some (Key.str (s1.remaining.take n)), s1.advance n)
  else some (none, s1)

/-! ## `Parser.read_value` and `Parser.parse_structure` -/

/-- The `result` accumulator of `parse_structure`: a dict or a list. -/
abbrev Acc := List (Key × Value) ⊕ List Value

/-- `end_character` for the accumulator's container kind. -/
def accEnd : Acc → Char
  | .inl _ => rbrace
  | .inr _ => ']'

/-- `is_dict`. -/
def accIsDict : Acc → Bool
  | .inl _ => true
  | .inr _ => false

/-- The finished accumulator as a `Value`. -/
def accValue : Acc → Value
  | .inl es => .obj es
  | .inr l => .arr l

mutual

/-- `Parser.read_value`.  Returns `none` on fuel exhaustion, otherwise the Python
result (`some v` a value — `some .sentinel` for the literal `null` — and `none` a
failed read) together with the state. -/
def read_value : Nat → St → Option (Option Value × St)
  | 0, _ => none
  | fuel + 1, s =>
    (skip_to_valid (fuel + 1) s).bind fun s1 =>
    if pyMem s1.current ['"', squote] then
      let r := read_string s1
      some (r.1.map Value.str, r.2)
    else if pyEq s1.current btick then some (none, s1)
    else if pyIsDigit s1.current || pyEq s1.current '-' then
      let r := read_number s1
      some (r.1.map Value.num, r.2)
    else if s1.startswith ("true".toList) then some (some (.bool true), s1.advance 4)
    else if s1.startswith ("false".toList) then some (some (.bool false), s1.advance 5)
    else if s1.startswith ("null".toList) then some (some .sentinel, s1.advance 4)
    else if pyEq s1.current lbrace then parse_structure fuel s1
    else if pyEq s1.current '[' then parse_structure fuel s1
    else some (none, s1)

/-- `Parser.parse_structure` up to entering the loop, plus the `finally` block:
the matching depth counter is incremented after consuming the opener and
decremented (clamped at zero) on every exit path of the loop. -/
def parse_structure : Nat → St → Option (Option Value × St)
  | 0, _ => none
  | fuel + 1, s =>
    (skip_to_valid (fuel + 1) s).bind fun s0 =>
    if pyMem s0.current [lbrace, '['] then
      let isDict := pyEq s0.current lbrace
      let s1 := s0.advance 1
      let s2 := if isDict then { s1 with braceDepth := s1.braceDepth + 1 }
                else { s1 with bracketDepth := s1.bracketDepth + 1 }
      let acc0 : Acc := if isDict then .inl [] else .inr []
      (parse_loop fuel acc0 s2).map fun r =>
        let s4 := if isDict then { r.2 with braceDepth := max 0 (r.2.braceDepth - 1) }
                  else { r.2 with bracketDepth := max 0 (r.2.bracketDepth - 1) }
        (r.1.map accValue, s4)
    else some (none, s0)

/-- The member loop of `parse_structure` (the `while True:` body down to reading
and storing one member). -/
def parse_loop : Nat → Acc → St → Option (Option Acc × St)
  | 0, _, _ => none
  | fuel + 1, acc, s =>
    (skip_to_valid (fuel + 1) s).bind fun s1 =>
    let endc := accEnd acc
    if pyEq s1.current endc then some (some acc, s1.advance 1)
    else if s1.endOfFile then some (none, s1)
    else
      match acc with
      | .inl entries =>
        (read_key (fuel + 1) s1).bind fun kr =>
        match kr.1 with
        | none =>
          let r := skip_invalid kr.2 [',', rbrace] (some endc)
          if r.1 = some endc then some (some (.inl entries), r.2)
          else if r.1 = none then some (none, r.2)
          else parse_loop fuel (.inl entries) r.2
        | some key =>
          (skip_to_valid (fuel + 1) kr.2).bind fun s3 =>
          if pyEq s3.current ':' then
            (read_value fuel (s3.advance 1)).bind fun vr =>
            match vr.1 with
            | some .sentinel => parse_after fuel (.inl (store entries key .null)) vr.2
            | some v => parse_after fuel (.inl (store entries key v)) vr.2
            | none =>
              let r := skip_invalid vr.2 [',', rbrace] (some endc)
              if r.1 = some endc then some (some (.inl entries), r.2)
              else if r.1 = none then some (none, r.2)
              else parse_loop fuel (.inl entries) r.2
          else
            let r := skip_invalid s3 [',', rbrace] (some endc)
            if r.1 = some endc then some (some (.inl entries), r.2)
            else if r.1 = none then some (none, r.2)
            else parse_loop fuel (.inl entries) r.2
      | .inr elems =>
        (read_value fuel s1).bind fun vr =>
        match vr.1 with
        | some .sentinel => parse_after fuel (.inr (elems ++ [Value.null])) vr.2
        | some v => parse_after fuel (.inr (elems ++ [v])) vr.2
        | none =>
          let r := skip_invalid vr.2 [',', ']'] (some endc)
          if r.1 = some (']' : Char) then some (some (.inr elems), r.2)
          else if r.1 = none then some (none, r.2)
          else parse_loop fuel (.inr elems) r.2

/-- The tail of the loop body after a member was stored: consume a comma and
continue, consume the closer and return, or recover once and continue. -/
def parse_after : Nat → Acc → St → Option (Option Acc × St)
  | 0, _, _ => none
  | fuel + 1, acc, s =>
    (skip_to_valid (fuel + 1) s).bind fun s6 =>
    if pyEq s6.current ',' then parse_loop fuel acc (s6.advance 1)
    else if pyEq s6.current (accEnd acc) then some (some acc, s6.advance 1)
    else
      let stopSet := if accIsDict acc then [',', rbrace] else [',', ']']
      let r := skip_invalid s6 stopSet (some (accEnd acc))
      if r.1 = some (accEnd acc) then some (some acc, r.2)
      else if r.1 = none then some (none, r.2)
      else parse_loop fuel acc r.2

end

/-! ## `Parser.try_parse_assignment` -/

/-- `Parser.try_parse_assignment`: on any mismatch the index (only) is reset to the
entry index. -/
def try_parse_assignment (fuel : Nat) (s : St) :
    Option (Option (List Char × Value) × St) :=
  let saved := s.index
  (skip_to_valid fuel s).bind fun s1 =>
  let kw : Option St :=
    if s1.startswith ("const".toList) then some (s1.advance 5)
    else if s1.startswith ("let".toList) then some (s1.advance 3)
    else if s1.startswith ("var".toList) then some (s1.advance 3)
    else none
  match kw with
  | none => some (none, s1.withIndex saved)
  | some s2 =>
    if !s2.endOfFile && !pyMem s2.current wsChars then some (none, s2.withIndex saved)
    else
      (read_identifier fuel s2).bind fun ir =>
      match ir.1 with
      | none => some (none, ir.2.withIndex saved)
      | some name =>
        if name.isEmpty then some (none, ir.2.withIndex saved)
        else
          (skip_to_valid fuel ir.2).bind fun s4 =>
          let s5 :=
            if pyEq s4.current ':' then
              let r := skip_invalid s4 ['='] none
              r.2.withIndex (r.2.index - 1)
            else s4
          if pyEq s5.current '=' then
            (skip_to_valid fuel (s5.advance 1)).bind fun s7 =>
            if pyMem s7.current [lbrace, '['] then
              (parse_structure fuel s7).bind fun pr =>
              match pr.1 with
              | none => some (none, pr.2.withIndex saved)
              | some v => some (some (name, v), pr.2)
            else some (none, s7.withIndex saved)
          else some (none, s5.withIndex saved)

/-! ## `parse_file` (`src/dictify_js/__init__.py`) -/

/-- Python `results[var_name] = structure` on the insertion-ordered results dict. -/
def store_result (rs : List (List Char × Value)) (nm : List Char) (v : Value) :
    List (List Char × Value) :=
  if rs.any (fun p => p.1 == nm) then rs.map (fun p => if p.1 == nm then (p.1, v) else p)
  else rs ++ [(nm, v)]

/-- The scanning loop of `parse_file`:
record only assignments whose structure is a non-empty dict; on a failed
assignment advance one character. -/
def parse_file_loop : Nat → St → List (List Char × Value) →
    Option (List (List Char × Value))
  | 0, _, _ => none
  | fuel + 1, s, rs =>
    if s.index < s.length then
      (skip_to_valid (fuel + 1) s).bind fun s1 =>
      (try_parse_assignment (fuel + 1) s1).bind fun ar =>
      match ar.1 with
      | some (nm, v) =>
        match v with
        | .obj es =>
          if 0 < es.length then parse_file_loop fuel ar.2 (store_result rs nm v)
          else parse_file_loop fuel ar.2 rs
        | _ => parse_file_loop fuel ar.2 rs
      | none => parse_file_loop fuel (ar.2.advance 1) rs
    else some rs

/-- `parse_file` on a raw code string (the file-reading path is out of scope). -/
def parse_file (fuel : Nat) (text : List Char) : Option (List (List Char × Value)) :=
  parse_file_loop fuel (St.mk text 0 0 0) []

end DictifyJs

namespace DictifyJs

/-! ## Basic lemmas about the cursor state -/

/-- Initial parser state on an input (`Parser.__init__`). -/
def initSt (l : List Char) : St := St.mk l 0 0 0

@[simp] theorem advance_text (s : St) (n : Nat) : (s.advance n).text = s.text := rfl

@[simp] theorem advance_index (s : St) (n : Nat) : (s.advance n).index = s.index + n := rfl

@[simp] theorem advance_brace (s : St) (n : Nat) : (s.advance n).braceDepth = s.braceDepth := rfl

@[simp] theorem advance_bracket (s : St) (n : Nat) :
    (s.advance n).bracketDepth = s.bracketDepth := rfl

@[simp] theorem withIndex_text (s : St) (i : Nat) : (s.withIndex i).text = s.text := rfl

@[simp] theorem withIndex_index (s : St) (i : Nat) : (s.withIndex i).index = i := rfl

@[simp] theorem withIndex_brace (s : St) (i : Nat) :
    (s.withIndex i).braceDepth = s.braceDepth := rfl

@[simp] theorem withIndex_bracket (s : St) (i : Nat) :
    (s.withIndex i).bracketDepth = s.bracketDepth := rfl

@[simp] theorem length_advance (s : St) (n : Nat) : (s.advance n).length = s.length := rfl

/-- The top-level keys of an object value. -/
def topKeys : Value → List Key
  | .obj es => es.map (fun p => p.1)
  | _ => []

/-! ## C5: the number reader on the specification's literals -/

/-- C5: the number reader, evaluated on the spec's literals as complete inputs.
`0xFF` ↦ Integer 255, `0b1010` ↦ Integer 10, `0o755` ↦ Integer 493 and
`1e6` ↦ Float 1000000 hold as claimed; but the bare literals `-10` and `3.14`
FAIL when they end exactly at end of input: there Python's `self.current` is `""`,
`"" in "eE"` is true, so the reader enters the exponent branch, finds no exponent
digits, and aborts the whole read.  Followed by any delimiter (as at every use
inside a structure) they produce Integer -10 and Float 3.14 as claimed.  This
theorem records the divergence of the code from the claim at the failing inputs
`-10` and `3.14`. -/
theorem read_number_literals :
    (read_number (initSt ("0xFF".toList))).1 = some (.int 255) ∧
    (read_number (initSt ("0b1010".toList))).1 = some (.int 10) ∧
    (read_number (initSt ("0o755".toList))).1 = some (.int 493) ∧
    (read_number (initSt ("1e6".toList))).1 = some (.float (mkRat 1000000 1)) ∧
    mkRat 1000000 1 = (1000000 : ℚ) ∧
    (read_number (initSt ("-10".toList))).1 = none ∧
    (read_number (initSt ("3.14".toList))).1 = none ∧
    read_number (initSt ("-10,".toList)) =
      (some (.int (-10)), (initSt ("-10,".toList)).withIndex 3) ∧
    read_number (initSt ("3.14,".toList)) =
      (some (.float (mkRat 157 50)), (initSt ("3.14,".toList)).withIndex 4) ∧
    mkRat 157 50 = (157 : ℚ)/50 := by
  refine ⟨by decide, by decide, by decide, by decide, ?_, by decide, by decide,
    by decide, by decide, ?_⟩
  · norm_num [mkRat, Rat.normalize]
  · norm_num [mkRat, Rat.normalize]

/-! ## C3 counterexample: the depth counters leak -/

/-- C3 counterexample: one complete `parse_structure` call on `{a:@{{` from a fresh
parser (both depth counters 0) returns no value, yet leaves `brace_depth = 2` —
recovery consumed two unmatched opening braces and then hit end of input, and the
`finally` block undoes only the entry increment.  The counters did not return to
their pre-call values. -/
theorem parse_structure_depth_leak :
    (initSt ("\x7ba:@\x7b\x7b".toList)).braceDepth = 0 ∧
    (initSt ("\x7ba:@\x7b\x7b".toList)).bracketDepth = 0 ∧
    (parse_structure 100 (initSt ("\x7ba:@\x7b\x7b".toList))).map
      (fun r => (r.1.isSome, r.2.braceDepth, r.2.bracketDepth)) =
      some (false, 2, 0) := by
  exact ⟨rfl, rfl, rfl⟩

/-! ## C6 counterexample: a floating-point object key -/

/-- C6 counterexample: the object literal `{3.14:1}` parses successfully and the
only key of the resulting mapping is the Float 3.14 (the rational 157/50, whose
denominator is not 1, so not an integer): `read_key` delegates any digit-initial
key to `read_number`, which also accepts fractional and exponent forms. -/
theorem parse_structure_float_key :
    (parse_structure 100 (initSt ("\x7b3.14:1\x7d".toList))).map
      (fun r => r.1.map topKeys) = some (some [Key.num (.float (mkRat 157 50))]) ∧
    (mkRat 157 50).den ≠ 1 := by
  exact ⟨rfl, by decide⟩

/-! ## C7 counterexample: an unterminated block comment stops before the end -/

/-- C7 counterexample: on the input `/*abc` — a `/*` with no matching `*/` — the
trivia skipper stops at index 4 (on the final character `c`), not at end of input
(index 5): the block-comment loop only consumes while at least two characters
remain. -/
theorem skip_to_valid_unterminated :
    skip_to_valid 100 (initSt ("/*abc".toList)) =
      some ((initSt ("/*abc".toList)).withIndex 4) ∧
    ("/*abc".toList).length = 5 := by
  exact ⟨by decide, by decide⟩

end DictifyJs

namespace DictifyJs

/-! ## Remaining-input lemmas -/

theorem current_eq_head? (s : St) : s.current = s.remaining.head? := by
  simp [St.current, St.remaining, ← List.get?_zero, List.get?_drop]

theorem remaining_advance (s : St) (n : Nat) :
    (s.advance n).remaining = s.remaining.drop n := by
  simp [St.remaining, St.advance, List.drop_drop, Nat.add_comm]

theorem current_of_remaining {s : St} {c : Char} {t : List Char}
    (h : s.remaining = c :: t) : s.current = some c := by
  rw [current_eq_head?, h]; rfl

theorem remaining_advance_one {s : St} {c : Char} {t : List Char}
    (h : s.remaining = c :: t) : (s.advance 1).remaining = t := by
  rw [remaining_advance, h]; rfl

theorem length_remaining (s : St) : s.remaining.length = s.length - s.index := by
  simp [St.remaining, St.length]

theorem endOfFile_false_of_remaining {s : St} {c : Char} {t : List Char}
    (h : s.remaining = c :: t) : s.endOfFile = false := by
  have hd : ¬ s.text.length ≤ s.index := by
    intro hle
    have : s.remaining = [] := by
      simp [St.remaining, List.drop_eq_nil_iff_le.mpr hle]
    rw [h] at this; cases this
  simp [St.endOfFile, St.length, hd]

theorem endOfFile_of_remaining_nil {s : St} (h : s.remaining = []) :
    s.endOfFile = true := by
  by_cases hle : s.text.length ≤ s.index
  · simp [St.endOfFile, St.length, hle]
  · exfalso
    have : s.remaining.length = 0 := by rw [h]; rfl
    rw [length_remaining] at this
    simp [St.length] at this
    omega

theorem startswith_eq (s : St) (tok : List Char) :
    s.startswith tok = tok.isPrefixOf s.remaining := rfl

/-! ## Monotonicity of `skip_to_valid` -/

theorem skip_to_valid_mono :
    ∀ fuel (s s' : St), skip_to_valid fuel s = some s' →
      s'.text = s.text ∧ s.index ≤ s'.index ∧
      s'.braceDepth = s.braceDepth ∧ s'.bracketDepth = s.bracketDepth := by
  intro fuel
  induction fuel with
  | zero => intro s s' h; cases h
  | succ n ih =>
    intro s s' h
    rw [skip_to_valid] at h
    split at h
    · cases h; exact ⟨rfl, le_refl _, rfl, rfl⟩
    · split at h
      · obtain ⟨h1, h2, h3, h4⟩ := ih _ _ h
        refine ⟨by simpa using h1, ?_, by simpa using h3, by simpa using h4⟩
        simp at h2; omega
      · split at h
        · obtain ⟨h1, h2, h3, h4⟩ := ih _ _ h
          refine ⟨by simpa using h1, ?_, by simpa using h3, by simpa using h4⟩
          simp at h2; omega
        · split at h
          · obtain ⟨h1, h2, h3, h4⟩ := ih _ _ h
            refine ⟨by simpa using h1, ?_, by simpa using h3, by simpa using h4⟩
            simp at h2; omega
          · cases h; exact ⟨rfl, le_refl _, rfl, rfl⟩

/-! ## The block-comment loop on unterminated comments -/

/-- No adjacent `*/` pair occurs in `l`. -/
def noBlockClose : List Char → Bool
  | a :: b :: t => !(a == '*' && b == '/') && noBlockClose (b :: t)
  | _ => true

theorem blockRun_of_noBlockClose :
    ∀ l, noBlockClose l = true → blockRun l = l.length - 1 := by
  intro l
  induction l with
  | nil => intro _; rfl
  | cons a t ih =>
    intro h
    cases t with
    | nil => rfl
    | cons b t2 =>
      rw [noBlockClose] at h
      simp only [Bool.and_eq_true, Bool.not_eq_true'] at h
      rw [blockRun]
      rw [if_neg]
      · rw [ih h.2]
        simp
        omega
      · intro hab
        simp [hab.1, hab.2] at h

end DictifyJs

namespace DictifyJs

/-- C7 amended general statement: if the trivia skipper stands at `/*` and no `*/`
occurs afterwards, the block-comment loop consumes only while at least two
characters remain, so the cursor ends at index ≥ length - 1 (on the final
character, or past the end if the final character is itself consumed as trivia) —
not necessarily at end of input. -/
theorem skip_to_valid_unterminated_block (fuel : Nat) (s s' : St) (body : List Char)
    (hrem : s.remaining = '/' :: '*' :: body)
    (hnc : noBlockClose body = true)
    (h : skip_to_valid (fuel + 1) s = some s') :
    s.length - 1 ≤ s'.index ∧ s'.text = s.text := by
  have hcur : s.current = some '/' := current_of_remaining hrem
  have heof : s.endOfFile = false := endOfFile_false_of_remaining hrem
  rw [skip_to_valid, heof] at h
  simp only [Bool.false_eq_true, if_false] at h
  have hws : pyMem s.current wsChars = false := by rw [hcur]; decide
  rw [hws] at h
  simp only [Bool.false_eq_true, if_false] at h
  have hsl : s.startswith ['/', '/'] = false := by
    rw [startswith_eq, hrem]
    simp [List.isPrefixOf]
  have hsb : s.startswith ['/', '*'] = true := by
    rw [startswith_eq, hrem]
    simp [List.isPrefixOf]
  rw [hsl] at h
  simp only [Bool.false_eq_true, if_false] at h
  rw [hsb] at h
  simp only [if_true] at h
  have hrem2 : (s.advance 2).remaining = body := by
    rw [remaining_advance, hrem]; rfl
  rw [hrem2, blockRun_of_noBlockClose body hnc] at h
  obtain ⟨h1, h2, _, _⟩ := skip_to_valid_mono _ _ _ h
  simp only [advance_index, advance_text] at h1 h2
  constructor
  · have hlen : body.length = s.length - s.index - 2 := by
      have := length_remaining s
      rw [hrem] at this
      simp at this
      omega
    have hidx : s.index + 2 ≤ s.length := by
      have := length_remaining s
      rw [hrem] at this
      simp at this
      omega
    omega
  · simpa using h1

end DictifyJs

namespace DictifyJs

/-- Witness for `skip_to_valid_unterminated_block` at the concrete input `/*abc`. -/
theorem skip_to_valid_unterminated_block_witness :
    (initSt ("/*abc".toList)).length - 1 ≤ ((initSt ("/*abc".toList)).withIndex 4).index ∧
    ((initSt ("/*abc".toList)).withIndex 4).text = (initSt ("/*abc".toList)).text :=
  skip_to_valid_unterminated_block 99 (initSt ("/*abc".toList))
    ((initSt ("/*abc".toList)).withIndex 4) ("abc".toList)
    (by decide) (by decide) (by decide)

end DictifyJs

namespace DictifyJs

/-! ## Monotonicity of the leaf readers -/

/-- An `if` whose two branches share their second component factors through the pair. -/
theorem ite_pair {A B : Type} (C : Prop) [Decidable C] (a b : A) (st : B) :
    (if C then (a, st) else (b, st)) = ((if C then a else b), st) := by
  split <;> rfl

theorem read_string_mono {s : St} {r : Option (List Char)} {s' : St}
    (h : read_string s = (r, s')) :
    s'.text = s.text ∧ s.index ≤ s'.index ∧
    s'.braceDepth = s.braceDepth ∧ s'.bracketDepth = s.bracketDepth := by
  rw [read_string] at h
  split at h
  · cases h
    simp
  · cases h
    exact ⟨rfl, le_refl _, rfl, rfl⟩

theorem read_number_exp_mono {s : St} {s' : St}
    (h : read_number_exp s = some s') :
    s'.text = s.text ∧ s.index ≤ s'.index ∧
    s'.braceDepth = s.braceDepth ∧ s'.bracketDepth = s.bracketDepth := by
  simp only [read_number_exp] at h
  split at h
  · split at h <;> split at h
    · cases h
    · cases h
      exact ⟨by simp, by simp; omega, by simp, by simp⟩
    · cases h
    · cases h
      exact ⟨by simp, by simp; omega, by simp, by simp⟩
  · cases h
    exact ⟨rfl, le_refl _, rfl, rfl⟩

/-- The state returned by `read_number_fin` is either the successful end state or
the restored entry state. -/
theorem read_number_fin_cases {s0 : St} {hasDot hasDigit : Bool} {s6 : St}
    {r : Option Num} {s' : St} (h : read_number_fin s0 hasDot hasDigit s6 = (r, s')) :
    s' = s6 ∨ s' = s0.withIndex s0.index := by
  rw [read_number_fin] at h
  split at h
  · rw [ite_pair] at h
    cases h
    exact Or.inl rfl
  · cases h
    exact Or.inr rfl

theorem read_number_mono {s : St} {r : Option Num} {s' : St}
    (h : read_number s = (r, s')) :
    s'.text = s.text ∧ s.index ≤ s'.index ∧
    s'.braceDepth = s.braceDepth ∧ s'.bracketDepth = s.bracketDepth := by
  simp only [read_number] at h
  split at h
  · cases h; simp
  · rename_i s1 heq
    have ht : s1.text = s.text ∧ s.index ≤ s1.index ∧
        s1.braceDepth = s.braceDepth ∧ s1.bracketDepth = s.bracketDepth := by
      split at heq
      · split at heq
        · cases heq
        · cases heq; simp
      · cases heq; exact ⟨rfl, le_refl _, rfl, rfl⟩
    obtain ⟨ht1, ht2, ht3, ht4⟩ := ht
    split at h
    · split at h <;> cases h <;>
        exact ⟨by simp [ht1], by simp; omega, by simp [ht3], by simp [ht4]⟩
    · split at h
      · split at h <;> cases h <;>
          exact ⟨by simp [ht1], by simp; omega, by simp [ht3], by simp [ht4]⟩
      · split at h
        · split at h <;> cases h <;>
            exact ⟨by simp [ht1], by simp; omega, by simp [ht3], by simp [ht4]⟩
        · split at h
          · cases h; simp
          · rename_i s6 heq2
            have h6 : s6.text = s1.text ∧ s1.index ≤ s6.index ∧
                s6.braceDepth = s1.braceDepth ∧ s6.bracketDepth = s1.bracketDepth := by
              split at heq2
              · obtain ⟨a, b, c, d⟩ := read_number_exp_mono heq2
                simp at a b c d
                exact ⟨a, by omega, c, d⟩
              · obtain ⟨a, b, c, d⟩ := read_number_exp_mono heq2
                simp at a b c d
                exact ⟨a, by omega, c, d⟩
            obtain ⟨h61, h62, h63, h64⟩ := h6
            rcases read_number_fin_cases h with f2 | f2
            · subst f2
              exact ⟨by rw [h61, ht1], by omega, by rw [h63, ht3], by rw [h64, ht4]⟩
            · subst f2
              simp

end DictifyJs

namespace DictifyJs

/-- One-step unfolding of `skip_invalid_loop` on a non-empty remaining input. -/
theorem skip_invalid_loop_cons (stop : List Char) (containerEnd : Option Char)
    (startBrace startBracket : Option Int) (c : Char) (t : List Char)
    (depth : Nat) (quote : Option Char) (brace bracket : Int) :
    skip_invalid_loop stop containerEnd startBrace startBracket (c :: t) depth quote brace bracket =
    (if c = '\\' then
      match t with
      | [] => (none, 2, brace, bracket)
      | _ :: t2 =>
        let r := skip_invalid_loop stop containerEnd startBrace startBracket t2 depth quote brace bracket
        (r.1, r.2.1 + 2, r.2.2)
    else
      match quote with
      | some qc =>
        let r := skip_invalid_loop stop containerEnd startBrace startBracket t depth
          (if c = qc then none else some qc) brace bracket
        (r.1, r.2.1 + 1, r.2.2)
      | none =>
        if c = '"' ∨ c = squote ∨ c = btick then
          let r := skip_invalid_loop stop containerEnd startBrace startBracket t depth (some c) brace bracket
          (r.1, r.2.1 + 1, r.2.2)
        else if c = lbrace ∨ c = '[' ∨ c = '(' then
          let brace' := if c = lbrace then brace + 1 else brace
          let bracket' := if c = '[' then bracket + 1 else bracket
          let r := skip_invalid_loop stop containerEnd startBrace startBracket t (depth + 1) none brace' bracket'
          (r.1, r.2.1 + 1, r.2.2)
        else if c = rbrace ∨ c = ']' ∨ c = ')' then
          let brace' := if c = rbrace then max 0 (brace - 1) else brace
          let bracket' := if c = ']' then max 0 (bracket - 1) else bracket
          if 0 < depth then
            let r := skip_invalid_loop stop containerEnd startBrace startBracket t (depth - 1) none brace' bracket'
            (r.1, r.2.1 + 1, r.2.2)
          else
            let isContainerClose : Bool :=
              if some c = containerEnd then
                if c = rbrace then
                  match startBrace with
                  | some sb => brace' < sb
                  | none => false
                else if c = ']' then
                  match startBracket with
                  | some sk => bracket' < sk
                  | none => false
                else false
              else false
            if c ∈ stop then
              if some c = containerEnd ∧ isContainerClose = false then
                let r := skip_invalid_loop stop containerEnd startBrace startBracket t depth none brace' bracket'
                (r.1, r.2.1 + 1, r.2.2)
              else (some c, 1, brace', bracket')
            else
              let r := skip_invalid_loop stop containerEnd startBrace startBracket t depth none brace' bracket'
              (r.1, r.2.1 + 1, r.2.2)
        else if depth = 0 ∧ c ∈ stop then (some c, 1, brace, bracket)
        else
          let r := skip_invalid_loop stop containerEnd startBrace startBracket t depth none brace bracket
          (r.1, r.2.1 + 1, r.2.2)) := by
  cases quote <;> cases t <;> rfl

end DictifyJs

namespace DictifyJs

/-! ## Monotonicity of `skip_invalid` and the remaining leaf readers -/

theorem skip_invalid_text (s : St) (stop : List Char) (cend : Option Char) :
    (skip_invalid s stop cend).2.text = s.text := rfl

theorem skip_invalid_index (s : St) (stop : List Char) (cend : Option Char) :
    s.index ≤ (skip_invalid s stop cend).2.index := by
  simp [skip_invalid]

theorem skip_invalid_loop_consumes (stop : List Char) (cend : Option Char)
    (sb sk : Option Int) (c : Char) (t : List Char) (d : Nat) (q : Option Char)
    (b k : Int) :
    1 ≤ (skip_invalid_loop stop cend sb sk (c :: t) d q b k).2.1 := by
  rw [skip_invalid_loop_cons]
  repeat' split
  all_goals simp
  all_goals split <;> simp

theorem skip_invalid_strict {s : St} {stop : List Char} {cend : Option Char}
    {c : Char} (h : (skip_invalid s stop cend).1 = some c) :
    s.index + 1 ≤ (skip_invalid s stop cend).2.index := by
  rcases hrem : s.remaining with _ | ⟨c0, t⟩
  · exfalso
    have : (skip_invalid s stop cend).1 = none := by
      simp [skip_invalid, hrem, skip_invalid_loop]
    rw [this] at h; cases h
  · have := skip_invalid_loop_consumes stop cend
      (if cend = some rbrace then some s.braceDepth else none)
      (if cend = some (']' : Char) then some s.bracketDepth else none)
      c0 t 0 none s.braceDepth s.bracketDepth
    simp only [skip_invalid, hrem]
    omega

theorem read_identifier_mono {fuel : Nat} {s : St} {r : Option (List Char)} {s' : St}
    (h : read_identifier fuel s = some (r, s')) :
    s'.text = s.text ∧ s.index ≤ s'.index ∧
    s'.braceDepth = s.braceDepth ∧ s'.bracketDepth = s.bracketDepth := by
  rw [read_identifier] at h
  rcases hsk : skip_to_valid fuel s with _ | s1
  · rw [hsk] at h; cases h
  · rw [hsk] at h
    obtain ⟨m1, m2, m3, m4⟩ := skip_to_valid_mono _ _ _ hsk
    try simp only [Option.some_bind] at h
    split at h
    · cases h
      exact ⟨by simp [m1], by simp; omega, by simp [m3], by simp [m4]⟩
    · cases h
      exact ⟨m1, m2, m3, m4⟩

theorem read_key_mono {fuel : Nat} {s : St} {r : Option Key} {s' : St}
    (h : read_key fuel s = some (r, s')) :
    s'.text = s.text ∧ s.index ≤ s'.index ∧
    s'.braceDepth = s.braceDepth ∧ s'.bracketDepth = s.bracketDepth := by
  rw [read_key] at h
  rcases hsk : skip_to_valid fuel s with _ | s1
  · rw [hsk] at h; cases h
  · rw [hsk] at h
    obtain ⟨m1, m2, m3, m4⟩ := skip_to_valid_mono _ _ _ hsk
    try simp only [Option.some_bind] at h
    split at h
    · cases h
      obtain ⟨a, b, c, d⟩ :=
        read_string_mono (rfl : read_string s1 = ((read_string s1).1, (read_string s1).2))
      exact ⟨a.trans m1, m2.trans b, c.trans m3, d.trans m4⟩
    · split at h
      · cases h
        exact ⟨m1, m2, m3, m4⟩
      · split at h
        · cases h
          obtain ⟨a, b, c, d⟩ :=
            read_number_mono (rfl : read_number s1 = ((read_number s1).1, (read_number s1).2))
          exact ⟨a.trans m1, m2.trans b, c.trans m3, d.trans m4⟩
        · split at h
          · cases h
            exact ⟨by simp [m1], by simp; omega, by simp [m3], by simp [m4]⟩
          · cases h
            exact ⟨m1, m2, m3, m4⟩

end DictifyJs

namespace DictifyJs

/-! ## Monotonicity of the mutually recursive parse cluster -/

/-- `read_value`, `parse_structure`, `parse_loop` and `parse_after` preserve the
text and never move the cursor backwards. -/
theorem cluster_mono : ∀ fuel : Nat,
    (∀ s r, read_value fuel s = some r → r.2.text = s.text ∧ s.index ≤ r.2.index) ∧
    (∀ s r, parse_structure fuel s = some r → r.2.text = s.text ∧ s.index ≤ r.2.index) ∧
    (∀ acc s r, parse_loop fuel acc s = some r → r.2.text = s.text ∧ s.index ≤ r.2.index) ∧
    (∀ acc s r, parse_after fuel acc s = some r → r.2.text = s.text ∧ s.index ≤ r.2.index) := by
  intro fuel
  induction fuel with
  | zero =>
    refine ⟨?_, ?_, ?_, ?_⟩ <;> intro _ <;> intros <;> simp [read_value, parse_structure,
      parse_loop, parse_after] at *
  | succ n ih =>
    obtain ⟨ihv, ihs, ihl, iha⟩ := ih
    have hrec : ∀ (s2 : St) (stopSet : List Char) (cend : Option Char) (acc : Acc) (r : Option Acc × St)
        (entries : Option Char × St → Option Acc × St)
        (h : (if (skip_invalid s2 stopSet cend).1 = some (accEnd acc) then
                some (entries (skip_invalid s2 stopSet cend)) else
              if (skip_invalid s2 stopSet cend).1 = none then
                some (none, (skip_invalid s2 stopSet cend).2) else
              parse_loop n acc (skip_invalid s2 stopSet cend).2) = some r)
        (hent : ∀ p, (entries p).2 = p.2), r.2.text = s2.text ∧ s2.index ≤ r.2.index := by
      intro s2 stopSet cend acc r entries h hent
      split at h
      · cases h
        rw [hent]
        exact ⟨skip_invalid_text _ _ _, skip_invalid_index _ _ _⟩
      · split at h
        · cases h
          exact ⟨skip_invalid_text _ _ _, skip_invalid_index _ _ _⟩
        · obtain ⟨a, b⟩ := ihl _ _ _ h
          exact ⟨a.trans (skip_invalid_text _ _ _),
            (skip_invalid_index s2 stopSet cend).trans b⟩
    refine ⟨?_, ?_, ?_, ?_⟩
    · -- read_value
      intro s r h
      rw [read_value] at h
      rcases hsk : skip_to_valid (n + 1) s with _ | s1
      · rw [hsk] at h; cases h
      · rw [hsk] at h
        obtain ⟨m1, m2, _, _⟩ := skip_to_valid_mono _ _ _ hsk
        try simp only [Option.some_bind] at h
        split at h
        · cases h
          obtain ⟨a, b, _, _⟩ :=
            read_string_mono (rfl : read_string s1 = ((read_string s1).1, (read_string s1).2))
          exact ⟨a.trans m1, m2.trans b⟩
        · split at h
          · cases h; exact ⟨m1, m2⟩
          · split at h
            · cases h
              obtain ⟨a, b, _, _⟩ :=
                read_number_mono (rfl : read_number s1 = ((read_number s1).1, (read_number s1).2))
              exact ⟨a.trans m1, m2.trans b⟩
            · split at h
              · cases h; exact ⟨by simp [m1], by simp; omega⟩
              · split at h
                · cases h; exact ⟨by simp [m1], by simp; omega⟩
                · split at h
                  · cases h; exact ⟨by simp [m1], by simp; omega⟩
                  · split at h
                    · obtain ⟨a, b⟩ := ihs _ _ h
                      exact ⟨a.trans m1, m2.trans b⟩
                    · split at h
                      · obtain ⟨a, b⟩ := ihs _ _ h
                        exact ⟨a.trans m1, m2.trans b⟩
                      · cases h; exact ⟨m1, m2⟩
    · -- parse_structure
      intro s r h
      rw [parse_structure] at h
      rcases hsk : skip_to_valid (n + 1) s with _ | s0
      · rw [hsk] at h; cases h
      · rw [hsk] at h
        obtain ⟨m1, m2, _, _⟩ := skip_to_valid_mono _ _ _ hsk
        try simp only [Option.some_bind] at h
        split at h
        · rw [Option.map_eq_some'] at h
          obtain ⟨rl, hpl, hf⟩ := h
          subst hf
          obtain ⟨a, b⟩ := ihl _ _ _ hpl
          have ha : rl.2.text = s0.text := by
            revert a; split <;> (intro a; simpa using a)
          have hb : s0.index + 1 ≤ rl.2.index := by
            revert b; split <;> (intro b; simp at b; omega)
          constructor
          · split <;> simpa [ha] using m1
          · split <;> simp <;> omega
        · cases h; exact ⟨m1, m2⟩
    · -- parse_loop
      intro acc s r h
      rw [parse_loop] at h
      rcases hsk : skip_to_valid (n + 1) s with _ | s1
      · rw [hsk] at h; cases h
      · rw [hsk] at h
        obtain ⟨m1, m2, _, _⟩ := skip_to_valid_mono _ _ _ hsk
        try simp only [Option.some_bind] at h
        split at h
        · cases h; exact ⟨by simp [m1], by simp; omega⟩
        · split at h
          · cases h; exact ⟨m1, m2⟩
          · split at h
            · -- dict branch
              rename List (Key × Value) => entries
              rcases hrk : read_key (n + 1) s1 with _ | kr
              · rw [hrk] at h; cases h
              · rw [hrk] at h
                try simp only [Option.some_bind] at h
                obtain ⟨k1, k2, _, _⟩ := read_key_mono
                  (show read_key (n + 1) s1 = some (kr.1, kr.2) from hrk)
                split at h
                · obtain ⟨a, b⟩ := hrec kr.2 [',', rbrace] (some (accEnd (Sum.inl entries))) (.inl entries) r
                    (fun p => (some (Sum.inl entries), p.2)) h (fun p => rfl)
                  exact ⟨a.trans (k1.trans m1), (m2.trans (k2.trans (le_refl _))).trans b⟩
                · rcases hsk2 : skip_to_valid (n + 1) kr.2 with _ | s3
                  · rw [hsk2] at h; cases h
                  · rw [hsk2] at h
                    obtain ⟨q1, q2, _, _⟩ := skip_to_valid_mono _ _ _ hsk2
                    try simp only [Option.some_bind] at h
                    split at h
                    · rcases hrv : read_value n (s3.advance 1) with _ | vr
                      · rw [hrv] at h; cases h
                      · rw [hrv] at h
                        try simp only [Option.some_bind] at h
                        obtain ⟨v1, v2⟩ := ihv _ _ hrv
                        have hL : s.index ≤ vr.2.index := by
                          simp at v2; omega
                        have hT : vr.2.text = s.text := by
                          simp at v1; rw [v1, q1, k1, m1]
                        split at h
                        · obtain ⟨a, b⟩ := iha _ _ _ h
                          exact ⟨a.trans hT, hL.trans b⟩
                        · obtain ⟨a, b⟩ := iha _ _ _ h
                          exact ⟨a.trans hT, hL.trans b⟩
                        · obtain ⟨a, b⟩ := hrec vr.2 [',', rbrace] (some (accEnd (Sum.inl entries)))
                            (.inl entries) r (fun p => (some (Sum.inl entries), p.2)) h
                            (fun p => rfl)
                          exact ⟨a.trans hT, hL.trans b⟩
                    · obtain ⟨a, b⟩ := hrec s3 [',', rbrace] (some (accEnd (Sum.inl entries))) (.inl entries) r
                        (fun p => (some (Sum.inl entries), p.2)) h (fun p => rfl)
                      exact ⟨a.trans (q1.trans (k1.trans m1)), (m2.trans (k2.trans q2)).trans b⟩
            · -- array branch
              rename List Value => elems
              rcases hrv : read_value n s1 with _ | vr
              · rw [hrv] at h; cases h
              · rw [hrv] at h
                try simp only [Option.some_bind] at h
                obtain ⟨v1, v2⟩ := ihv _ _ hrv
                have hT : vr.2.text = s.text := v1.trans m1
                have hL : s.index ≤ vr.2.index := m2.trans v2
                split at h
                · obtain ⟨a, b⟩ := iha _ _ _ h
                  exact ⟨a.trans hT, hL.trans b⟩
                · obtain ⟨a, b⟩ := iha _ _ _ h
                  exact ⟨a.trans hT, hL.trans b⟩
                · obtain ⟨a, b⟩ := hrec vr.2 [',', ']'] (some (accEnd (Sum.inr elems))) (.inr elems) r
                    (fun p => (some (Sum.inr elems), p.2)) h (fun p => rfl)
                  exact ⟨a.trans hT, hL.trans b⟩
    · -- parse_after
      intro acc s r h
      rw [parse_after] at h
      rcases hsk : skip_to_valid (n + 1) s with _ | s6
      · rw [hsk] at h; cases h
      · rw [hsk] at h
        obtain ⟨m1, m2, _, _⟩ := skip_to_valid_mono _ _ _ hsk
        try simp only [Option.some_bind] at h
        split at h
        · obtain ⟨a, b⟩ := ihl _ _ _ h
          constructor
          · rw [a]; simp [m1]
          · simp at b; omega
        · split at h
          · cases h; exact ⟨by simp [m1], by simp; omega⟩
          · obtain ⟨a, b⟩ := hrec s6 (if accIsDict acc then [',', rbrace] else [',', ']'])
              (some (accEnd acc)) acc r (fun p => (some acc, p.2)) h (fun p => rfl)
            exact ⟨a.trans m1, m2.trans b⟩

end DictifyJs

namespace DictifyJs

/-! ## C8: `try_parse_assignment` restores the cursor on any mismatch -/

/-- C8: whenever `try_parse_assignment` fails to produce a (name, value) pair —
for any mismatch cause (missing `const`/`let`/`var`, keyword not followed by
whitespace, missing identifier, missing `=`, failed structure parse) — the cursor
index is restored exactly to its value at entry, and the text is unchanged. -/
theorem try_parse_assignment_restores (fuel : Nat) (s s' : St)
    (h : try_parse_assignment fuel s = some (none, s')) :
    s'.index = s.index ∧ s'.text = s.text := by
  rw [try_parse_assignment] at h
  rcases hsk : skip_to_valid fuel s with _ | s1
  · rw [hsk] at h; cases h
  · rw [hsk] at h
    obtain ⟨m1, _, _, _⟩ := skip_to_valid_mono _ _ _ hsk
    try simp only [Option.some_bind] at h
    split at h
    · -- no keyword
      cases h; exact ⟨rfl, m1⟩
    · rename_i s2 hkw
      have hs2t : s2.text = s.text := by
        split at hkw
        · cases hkw; simpa using m1
        · split at hkw
          · cases hkw; simpa using m1
          · split at hkw
            · cases hkw; simpa using m1
            · cases hkw
      split at h
      · cases h; exact ⟨rfl, hs2t⟩
      · rcases hid : read_identifier fuel s2 with _ | ir
        · rw [hid] at h; cases h
        · rw [hid] at h
          try simp only [Option.some_bind] at h
          obtain ⟨i1, _, _, _⟩ := read_identifier_mono
            (show read_identifier fuel s2 = some (ir.1, ir.2) from hid)
          have hirt : ir.2.text = s.text := i1.trans hs2t
          split at h
          · cases h; exact ⟨rfl, hirt⟩
          · rename Option (List Char) => ro
            rename_i name hro
            split at h
            · cases h; exact ⟨rfl, hirt⟩
            · rcases hsk2 : skip_to_valid fuel ir.2 with _ | s4
              · rw [hsk2] at h; cases h
              · rw [hsk2] at h
                obtain ⟨q1, _, _, _⟩ := skip_to_valid_mono _ _ _ hsk2
                have hs4t : s4.text = s.text := q1.trans hirt
                try simp only [Option.some_bind] at h
                have htail : ∀ s5 : St, s5.text = s.text →
                    ((if pyEq s5.current '=' = true then
                        (skip_to_valid fuel (s5.advance 1)).bind fun a =>
                          if pyMem a.current [lbrace, '['] = true then
                            (parse_structure fuel a).bind fun pr =>
                              match pr.1 with
                              | none => some (none, pr.2.withIndex s.index)
                              | some v => some (some (name, v), pr.2)
                          else some (none, a.withIndex s.index)
                      else some (none, s5.withIndex s.index)) = some (none, s')) →
                    s'.index = s.index ∧ s'.text = s.text := by
                  intro s5 hs5t h
                  split at h
                  · rcases hsk3 : skip_to_valid fuel (s5.advance 1) with _ | s7
                    · rw [hsk3] at h; cases h
                    · rw [hsk3] at h
                      obtain ⟨w1, _, _, _⟩ := skip_to_valid_mono _ _ _ hsk3
                      have hs7t : s7.text = s.text := by
                        rw [w1, advance_text, hs5t]
                      try simp only [Option.some_bind] at h
                      split at h
                      · rcases hps : parse_structure fuel s7 with _ | pr
                        · rw [hps] at h; cases h
                        · rw [hps] at h
                          try simp only [Option.some_bind] at h
                          obtain ⟨p1, _⟩ := (cluster_mono fuel).2.1 _ _
                            (show parse_structure fuel s7 = some (pr.1, pr.2) from hps)
                          split at h
                          · cases h
                            exact ⟨rfl, p1.trans hs7t⟩
                          · cases h
                      · cases h; exact ⟨rfl, hs7t⟩
                  · cases h; exact ⟨rfl, hs5t⟩
                split at h
                · exact htail _ (by rw [withIndex_text, skip_invalid_text]; exact hs4t) h
                · exact htail _ hs4t h

end DictifyJs

namespace DictifyJs

/-- Witness for `try_parse_assignment_restores` at the concrete input `hello`
(no declaration keyword, so the match fails and the cursor is restored to 0). -/
theorem try_parse_assignment_restores_witness :
    ((initSt ("hello".toList)).withIndex 0).index = (initSt ("hello".toList)).index ∧
    ((initSt ("hello".toList)).withIndex 0).text = (initSt ("hello".toList)).text :=
  try_parse_assignment_restores 50 (initSt ("hello".toList))
    ((initSt ("hello".toList)).withIndex 0) rfl

end DictifyJs

namespace DictifyJs

/-! ## Non-negativity of the depth counters -/

theorem skip_invalid_loop_nonneg_aux (stop : List Char) (cend : Option Char)
    (sb sk : Option Int) :
    ∀ (n : Nat) (l : List Char), l.length ≤ n → ∀ (d : Nat) (q : Option Char) (b k : Int),
      0 ≤ b → 0 ≤ k →
      0 ≤ (skip_invalid_loop stop cend sb sk l d q b k).2.2.1 ∧
      0 ≤ (skip_invalid_loop stop cend sb sk l d q b k).2.2.2 := by
  intro n
  induction n with
  | zero =>
    intro l hl d q b k hb hk
    have : l = [] := by
      cases l
      · rfl
      · simp at hl
    subst this
    rw [skip_invalid_loop.eq_1]
    exact ⟨hb, hk⟩
  | succ m ih =>
    intro l hl d q b k hb hk
    cases l with
    | nil =>
      rw [skip_invalid_loop.eq_1]
      exact ⟨hb, hk⟩
    | cons c t =>
      rw [skip_invalid_loop_cons]
      simp only [List.length_cons] at hl
      repeat' split
      all_goals try dsimp only
      all_goals repeat' split
      all_goals try dsimp only
      all_goals
        first
        | exact ih _ (by (try simp only [List.length_cons] at hl); omega) _ _ _ _ (by omega) (by omega)
        | exact ⟨by omega, by omega⟩

theorem skip_invalid_nonneg (s : St) (stop : List Char) (cend : Option Char)
    (hb : 0 ≤ s.braceDepth) (hk : 0 ≤ s.bracketDepth) :
    0 ≤ (skip_invalid s stop cend).2.braceDepth ∧
    0 ≤ (skip_invalid s stop cend).2.bracketDepth := by
  exact skip_invalid_loop_nonneg_aux _ _ _ _ _ _ (le_refl _) _ _ _ _ hb hk

end DictifyJs

namespace DictifyJs

/-- The parse cluster keeps both global depth counters non-negative: every
decrement is written `max 0 (d - 1)`. -/
theorem cluster_nonneg : ∀ fuel : Nat,
    (∀ s r, 0 ≤ s.braceDepth → 0 ≤ s.bracketDepth → read_value fuel s = some r →
      0 ≤ r.2.braceDepth ∧ 0 ≤ r.2.bracketDepth) ∧
    (∀ s r, 0 ≤ s.braceDepth → 0 ≤ s.bracketDepth → parse_structure fuel s = some r →
      0 ≤ r.2.braceDepth ∧ 0 ≤ r.2.bracketDepth) ∧
    (∀ acc s r, 0 ≤ s.braceDepth → 0 ≤ s.bracketDepth → parse_loop fuel acc s = some r →
      0 ≤ r.2.braceDepth ∧ 0 ≤ r.2.bracketDepth) ∧
    (∀ acc s r, 0 ≤ s.braceDepth → 0 ≤ s.bracketDepth → parse_after fuel acc s = some r →
      0 ≤ r.2.braceDepth ∧ 0 ≤ r.2.bracketDepth) := by
  intro fuel
  induction fuel with
  | zero =>
    refine ⟨?_, ?_, ?_, ?_⟩ <;> intro _ <;> intros <;> simp [read_value, parse_structure,
      parse_loop, parse_after] at *
  | succ n ih =>
    obtain ⟨ihv, ihs, ihl, iha⟩ := ih
    have hrec : ∀ (s2 : St) (stopSet : List Char) (cend : Option Char) (acc : Acc)
        (r : Option Acc × St) (entries : Option Char × St → Option Acc × St)
        (hb : 0 ≤ s2.braceDepth) (hk : 0 ≤ s2.bracketDepth)
        (h : (if (skip_invalid s2 stopSet cend).1 = some (accEnd acc) then
                some (entries (skip_invalid s2 stopSet cend)) else
              if (skip_invalid s2 stopSet cend).1 = none then
                some (none, (skip_invalid s2 stopSet cend).2) else
              parse_loop n acc (skip_invalid s2 stopSet cend).2) = some r)
        (hent : ∀ p, (entries p).2 = p.2),
        0 ≤ r.2.braceDepth ∧ 0 ≤ r.2.bracketDepth := by
      intro s2 stopSet cend acc r entries hb hk h hent
      obtain ⟨nb, nk⟩ := skip_invalid_nonneg s2 stopSet cend hb hk
      split at h
      · cases h
        rw [hent]
        exact ⟨nb, nk⟩
      · split at h
        · cases h
          exact ⟨nb, nk⟩
        · exact ihl _ _ _ nb nk h
    refine ⟨?_, ?_, ?_, ?_⟩
    · -- read_value
      intro s r hb hk h
      rw [read_value] at h
      rcases hsk : skip_to_valid (n + 1) s with _ | s1
      · rw [hsk] at h; cases h
      · rw [hsk] at h
        obtain ⟨_, _, m3, m4⟩ := skip_to_valid_mono _ _ _ hsk
        have hb1 : 0 ≤ s1.braceDepth := by rw [m3]; exact hb
        have hk1 : 0 ≤ s1.bracketDepth := by rw [m4]; exact hk
        try simp only [Option.some_bind] at h
        split at h
        · cases h
          obtain ⟨_, _, c, d⟩ :=
            read_string_mono (rfl : read_string s1 = ((read_string s1).1, (read_string s1).2))
          exact ⟨le_of_le_of_eq hb1 c.symm, le_of_le_of_eq hk1 d.symm⟩
        · split at h
          · cases h; exact ⟨hb1, hk1⟩
          · split at h
            · cases h
              obtain ⟨_, _, c, d⟩ :=
                read_number_mono (rfl : read_number s1 = ((read_number s1).1, (read_number s1).2))
              exact ⟨le_of_le_of_eq hb1 c.symm, le_of_le_of_eq hk1 d.symm⟩
            · split at h
              · cases h; exact ⟨by simpa using hb1, by simpa using hk1⟩
              · split at h
                · cases h; exact ⟨by simpa using hb1, by simpa using hk1⟩
                · split at h
                  · cases h; exact ⟨by simpa using hb1, by simpa using hk1⟩
                  · split at h
                    · exact ihs _ _ hb1 hk1 h
                    · split at h
                      · exact ihs _ _ hb1 hk1 h
                      · cases h; exact ⟨hb1, hk1⟩
    · -- parse_structure
      intro s r hb hk h
      rw [parse_structure] at h
      rcases hsk : skip_to_valid (n + 1) s with _ | s0
      · rw [hsk] at h; cases h
      · rw [hsk] at h
        obtain ⟨_, _, m3, m4⟩ := skip_to_valid_mono _ _ _ hsk
        have hb1 : 0 ≤ s0.braceDepth := by rw [m3]; exact hb
        have hk1 : 0 ≤ s0.bracketDepth := by rw [m4]; exact hk
        try simp only [Option.some_bind] at h
        split at h
        · rw [Option.map_eq_some'] at h
          obtain ⟨rl, hpl, hf⟩ := h
          subst hf
          have hpre : 0 ≤ (if pyEq s0.current lbrace = true then
              { s0.advance 1 with braceDepth := (s0.advance 1).braceDepth + 1 }
            else { s0.advance 1 with bracketDepth := (s0.advance 1).bracketDepth + 1 }).braceDepth ∧
              0 ≤ (if pyEq s0.current lbrace = true then
              { s0.advance 1 with braceDepth := (s0.advance 1).braceDepth + 1 }
            else { s0.advance 1 with bracketDepth := (s0.advance 1).bracketDepth + 1 }).bracketDepth := by
            constructor <;> (split <;> simp <;> omega)
          obtain ⟨a, b⟩ := ihl _ _ _ hpre.1 hpre.2 hpl
          constructor
          · split <;> simp <;> omega
          · split <;> simp <;> omega
        · cases h; exact ⟨hb1, hk1⟩
    · -- parse_loop
      intro acc s r hb hk h
      rw [parse_loop] at h
      rcases hsk : skip_to_valid (n + 1) s with _ | s1
      · rw [hsk] at h; cases h
      · rw [hsk] at h
        obtain ⟨_, _, m3, m4⟩ := skip_to_valid_mono _ _ _ hsk
        have hb1 : 0 ≤ s1.braceDepth := by rw [m3]; exact hb
        have hk1 : 0 ≤ s1.bracketDepth := by rw [m4]; exact hk
        try simp only [Option.some_bind] at h
        split at h
        · cases h; exact ⟨by simpa using hb1, by simpa using hk1⟩
        · split at h
          · cases h; exact ⟨hb1, hk1⟩
          · split at h
            · -- dict branch
              rename List (Key × Value) => entries
              rcases hrk : read_key (n + 1) s1 with _ | kr
              · rw [hrk] at h; cases h
              · rw [hrk] at h
                try simp only [Option.some_bind] at h
                obtain ⟨_, _, k3, k4⟩ := read_key_mono
                  (show read_key (n + 1) s1 = some (kr.1, kr.2) from hrk)
                have hbk : 0 ≤ kr.2.braceDepth := by rw [k3]; exact hb1
                have hkk : 0 ≤ kr.2.bracketDepth := by rw [k4]; exact hk1
                split at h
                · exact hrec kr.2 [',', rbrace] (some (accEnd (Sum.inl entries)))
                    (.inl entries) r (fun p => (some (Sum.inl entries), p.2)) hbk hkk h
                    (fun p => rfl)
                · rcases hsk2 : skip_to_valid (n + 1) kr.2 with _ | s3
                  · rw [hsk2] at h; cases h
                  · rw [hsk2] at h
                    obtain ⟨_, _, q3, q4⟩ := skip_to_valid_mono _ _ _ hsk2
                    have hb3 : 0 ≤ s3.braceDepth := by rw [q3]; exact hbk
                    have hk3 : 0 ≤ s3.bracketDepth := by rw [q4]; exact hkk
                    try simp only [Option.some_bind] at h
                    split at h
                    · rcases hrv : read_value n (s3.advance 1) with _ | vr
                      · rw [hrv] at h; cases h
                      · rw [hrv] at h
                        try simp only [Option.some_bind] at h
                        obtain ⟨vb, vk⟩ := ihv _ _ (by simpa using hb3) (by simpa using hk3) hrv
                        split at h
                        · exact iha _ _ _ vb vk h
                        · exact iha _ _ _ vb vk h
                        · exact hrec vr.2 [',', rbrace] (some (accEnd (Sum.inl entries)))
                            (.inl entries) r (fun p => (some (Sum.inl entries), p.2)) vb vk h
                            (fun p => rfl)
                    · exact hrec s3 [',', rbrace] (some (accEnd (Sum.inl entries)))
                        (.inl entries) r (fun p => (some (Sum.inl entries), p.2)) hb3 hk3 h
                        (fun p => rfl)
            · -- array branch
              rename List Value => elems
              rcases hrv : read_value n s1 with _ | vr
              · rw [hrv] at h; cases h
              · rw [hrv] at h
                try simp only [Option.some_bind] at h
                obtain ⟨vb, vk⟩ := ihv _ _ hb1 hk1 hrv
                split at h
                · exact iha _ _ _ vb vk h
                · exact iha _ _ _ vb vk h
                · exact hrec vr.2 [',', ']'] (some (accEnd (Sum.inr elems)))
                    (.inr elems) r (fun p => (some (Sum.inr elems), p.2)) vb vk h
                    (fun p => rfl)
    · -- parse_after
      intro acc s r hb hk h
      rw [parse_after] at h
      rcases hsk : skip_to_valid (n + 1) s with _ | s6
      · rw [hsk] at h; cases h
      · rw [hsk] at h
        obtain ⟨_, _, m3, m4⟩ := skip_to_valid_mono _ _ _ hsk
        have hb1 : 0 ≤ s6.braceDepth := by rw [m3]; exact hb
        have hk1 : 0 ≤ s6.bracketDepth := by rw [m4]; exact hk
        try simp only [Option.some_bind] at h
        split at h
        · exact ihl _ _ _ (by simpa using hb1) (by simpa using hk1) h
        · split at h
          · cases h; exact ⟨by simpa using hb1, by simpa using hk1⟩
          · exact hrec s6 (if accIsDict acc then [',', rbrace] else [',', ']'])
              (some (accEnd acc)) acc r (fun p => (some acc, p.2)) hb1 hk1 h (fun p => rfl)

end DictifyJs

namespace DictifyJs

/-- C3 amended: the depth counters do not in general return to their pre-call
values (see `parse_structure_depth_leak`); what does hold is the adjacent
invariant that they never become negative — every decrement in the code is the
clamped `max(0, d - 1)` — so a complete `parse_structure` call from non-negative
counters leaves them non-negative. -/
theorem parse_structure_depth_nonneg (fuel : Nat) (s : St) (r : Option Value × St)
    (hb : 0 ≤ s.braceDepth) (hk : 0 ≤ s.bracketDepth)
    (h : parse_structure fuel s = some r) :
    0 ≤ r.2.braceDepth ∧ 0 ≤ r.2.bracketDepth :=
  (cluster_nonneg fuel).2.1 s r hb hk h

/-- Witness for `parse_structure_depth_nonneg` at the depth-leaking input. -/
theorem parse_structure_depth_nonneg_witness :
    0 ≤ (St.mk ("\x7ba:@\x7b\x7b".toList) 6 2 0).braceDepth ∧
    0 ≤ (St.mk ("\x7ba:@\x7b\x7b".toList) 6 2 0).bracketDepth :=
  parse_structure_depth_nonneg 100 (initSt ("\x7ba:@\x7b\x7b".toList))
    (none, St.mk ("\x7ba:@\x7b\x7b".toList) 6 2 0) (by decide) (by decide) rfl

end DictifyJs

namespace DictifyJs

/-! ## Recursive predicates over produced values -/

mutual

/-- Every node of the value tree satisfies `p` and every object key satisfies `q`. -/
def allNodes (p : Value → Bool) (q : Key → Bool) : Value → Bool
  | .obj es => p (.obj es) && allEntries p q es
  | .arr l => p (.arr l) && allElems p q l
  | v => p v

def allEntries (p : Value → Bool) (q : Key → Bool) : List (Key × Value) → Bool
  | [] => true
  | (k, v) :: t => q k && allNodes p q v && allEntries p q t

def allElems (p : Value → Bool) (q : Key → Bool) : List Value → Bool
  | [] => true
  | v :: t => allNodes p q v && allElems p q t

end

/-- This value is not the `_NULL_VALUE` sentinel. -/
def notSent : Value → Bool
  | .sentinel => false
  | _ => true

/-- No sentinel occurs anywhere in the value tree. -/
def noSent (v : Value) : Bool := allNodes notSent (fun _ => true) v

/-- A key as the claim describes keys: a string or a non-negative number. -/
def keyOk : Key → Bool
  | .str _ => true
  | .num n => decide (0 ≤ n.toRat)

/-- Every key of every object anywhere in the value tree is a string or a
non-negative number. -/
def keysOk (v : Value) : Bool := allNodes (fun _ => true) keyOk v

theorem allEntries_map_store {p : Value → Bool} {q : Key → Bool}
    {k : Key} {v : Value} (hv : allNodes p q v = true) :
    ∀ es : List (Key × Value), allEntries p q es = true →
      allEntries p q (es.map (fun e => if Key.pyEqKey e.1 k = true then (e.1, v) else e)) = true := by
  intro es
  induction es with
  | nil => intro _; rfl
  | cons e t ih =>
    intro hes
    rw [allEntries] at hes
    simp only [Bool.and_eq_true] at hes
    obtain ⟨⟨he1, he2⟩, ht⟩ := hes
    rw [List.map_cons, allEntries]
    split
    · simp only [Bool.and_eq_true]
      exact ⟨⟨he1, hv⟩, ih ht⟩
    · simp only [Bool.and_eq_true]
      exact ⟨⟨he1, he2⟩, ih ht⟩

theorem allEntries_append {p : Value → Bool} {q : Key → Bool}
    {k : Key} {v : Value} (hkq : q k = true) (hv : allNodes p q v = true) :
    ∀ es : List (Key × Value), allEntries p q es = true →
      allEntries p q (es ++ [(k, v)]) = true := by
  intro es
  induction es with
  | nil =>
    intro _
    rw [List.nil_append, allEntries]
    simp only [Bool.and_eq_true]
    exact ⟨⟨hkq, hv⟩, rfl⟩
  | cons e t ih =>
    intro hes
    rw [allEntries] at hes
    simp only [Bool.and_eq_true] at hes
    obtain ⟨⟨he1, he2⟩, ht⟩ := hes
    rw [List.cons_append, allEntries]
    simp only [Bool.and_eq_true]
    exact ⟨⟨he1, he2⟩, ih ht⟩

theorem allEntries_store {p : Value → Bool} {q : Key → Bool}
    {es : List (Key × Value)} {k : Key} {v : Value}
    (hes : allEntries p q es = true)
    (hkq : q k = true) (hv : allNodes p q v = true) :
    allEntries p q (store es k v) = true := by
  rw [store]
  split
  · exact allEntries_map_store hv es hes
  · exact allEntries_append hkq hv es hes

theorem allElems_append {p : Value → Bool} {q : Key → Bool}
    {l : List Value} {v : Value}
    (hl : allElems p q l = true) (hv : allNodes p q v = true) :
    allElems p q (l ++ [v]) = true := by
  induction l with
  | nil =>
    simp only [List.nil_append, allElems, Bool.and_eq_true]
    exact ⟨hv, trivial⟩
  | cons e t ih =>
    rw [allElems] at hl
    simp only [Bool.and_eq_true] at hl
    rw [List.cons_append, allElems]
    simp only [Bool.and_eq_true]
    exact ⟨hl.1, ih hl.2⟩

end DictifyJs

namespace DictifyJs

/-! ## Numeric values read from a digit-initial literal are non-negative -/

theorem mkRat_nonneg_of_nonneg {m : Int} (hm : 0 ≤ m) (d : Nat) : 0 ≤ mkRat m d := by
  rw [Rat.mkRat_eq_div]
  have : (0 : ℚ) ≤ (m : ℚ) := by exact_mod_cast hm
  positivity

theorem pyIntRadix_nonneg {base : Nat} {l : List Char} (h : l.head? ≠ some '-') :
    0 ≤ pyIntRadix base l := by
  rw [pyIntRadix.eq_def]
  split
  · simp at h
  · exact Int.natCast_nonneg _

theorem pyIntDec_nonneg {l : List Char} (h : l.head? ≠ some '-') :
    0 ≤ pyIntDec l := by
  rw [pyIntDec.eq_def]
  split
  · simp at h
  · exact Int.natCast_nonneg _

set_option maxHeartbeats 1000000 in
theorem decCore_nonneg (l : List Char) : 0 ≤ decCore l := by
  simp only [decCore]
  repeat' split
  all_goals exact mkRat_nonneg_of_nonneg (by positivity) _

theorem pyFloat_nonneg {l : List Char} (h : l.head? ≠ some '-') :
    0 ≤ pyFloat l := by
  rw [pyFloat.eq_def]
  split
  · simp at h
  · exact decCore_nonneg _

theorem digitRun_pos {c : Char} {t : List Char} (h : c.isDigit = true) :
    1 ≤ digitRun (c :: t) := by
  rw [digitRun, List.takeWhile_cons, h]
  simp

/-- The numeric value produced by `read_number_fin` is the float or the int
denoted by the slice. -/
theorem read_number_fin_val {s0 : St} {hasDot hasDigit : Bool} {s6 : St}
    {n : Num} {s' : St} (h : read_number_fin s0 hasDot hasDigit s6 = (some n, s')) :
    n = .float (pyFloat ((s0.text.drop s0.index).take (s6.index - s0.index))) ∨
    n = .int (pyIntDec ((s0.text.drop s0.index).take (s6.index - s0.index))) := by
  rw [read_number_fin] at h
  split at h
  · rw [ite_pair] at h
    rw [Prod.mk.injEq] at h
    rcases h with ⟨h1, _⟩
    split at h1
    · cases h1; exact Or.inl rfl
    · cases h1; exact Or.inr rfl
  · cases h

end DictifyJs

namespace DictifyJs

theorem take_head? {c : Char} {t : List Char} {k : Nat} (hk : 1 ≤ k) :
    ((c :: t).take k).head? = some c := by
  cases k with
  | zero => omega
  | succ m => rfl

theorem isDigit_ne_minus {c : Char} (h : c.isDigit = true) : c ≠ '-' := by
  intro hc
  subst hc
  cases h

/-- A number read from a digit-initial position (no leading minus possible) is
non-negative. -/
theorem read_number_digit_nonneg {s : St} {n : Num} {s' : St}
    (hd : pyIsDigit s.current = true)
    (h : read_number s = (some n, s')) : 0 ≤ n.toRat := by
  rcases hcv : s.current with _ | c
  · rw [hcv] at hd; cases hd
  · rw [hcv] at hd
    simp only [pyIsDigit] at hd
    have hne : pyEq s.current '-' = false := by
      rw [hcv]
      simp only [pyEq]
      exact decide_eq_false (by
        intro hcontra
        exact isDigit_ne_minus hd (by injection hcontra))
    rcases hrem : s.remaining with _ | ⟨c0, t⟩
    · exfalso
      have := current_eq_head? s
      rw [hcv, hrem] at this
      cases this
    · have hc0 : c0 = c := by
        have := current_eq_head? s
        rw [hcv, hrem] at this
        cases this
        rfl
      subst hc0
      simp only [read_number] at h
      rw [hne] at h
      simp only [Bool.false_eq_true, if_false] at h
      have hslice : ∀ k : Nat, 1 ≤ k →
          (((s.text.drop s.index).take k).head? ≠ some '-') := by
        intro k hk
        have : s.text.drop s.index = c0 :: t := hrem
        rw [this, take_head? hk]
        intro hcontra
        exact isDigit_ne_minus hd (by injection hcontra)
      split at h
      · -- hex
        split at h
        · cases h
          simp only [Num.toRat]
          exact_mod_cast pyIntRadix_nonneg (hslice _ (by simp; omega))
        · cases h
      · split at h
        · -- binary
          split at h
          · cases h
            simp only [Num.toRat]
            exact_mod_cast pyIntRadix_nonneg (hslice _ (by simp; omega))
          · cases h
        · split at h
          · -- octal
            split at h
            · cases h
              simp only [Num.toRat]
              exact_mod_cast pyIntRadix_nonneg (hslice _ (by simp; omega))
            · cases h
          · -- decimal
            split at h
            · cases h
            · rename_i s6 heq2
              have h6 : s.index + 1 ≤ s6.index := by
                have h1 : 1 ≤ digitRun s.remaining := by
                  rw [hrem]; exact digitRun_pos hd
                obtain ⟨_, b6, _, _⟩ := read_number_exp_mono heq2
                revert b6
                split <;> (intro b6; simp at b6 ⊢; omega)
              rcases read_number_fin_val h with hv | hv <;> subst hv <;>
                simp only [Num.toRat]
              · exact pyFloat_nonneg (hslice _ (by omega))
              · exact_mod_cast pyIntDec_nonneg (hslice _ (by omega))

end DictifyJs

namespace DictifyJs

/-! ## Every produced key is a string or a non-negative number -/

theorem read_key_keyOk {fuel : Nat} {s : St} {k : Key} {s' : St}
    (h : read_key fuel s = some (some k, s')) : keyOk k = true := by
  rw [read_key] at h
  rcases hsk : skip_to_valid fuel s with _ | s1
  · rw [hsk] at h; cases h
  · rw [hsk] at h
    try simp only [Option.some_bind] at h
    split at h
    · rw [Option.some.injEq, Prod.mk.injEq] at h
      obtain ⟨h1, _⟩ := h
      rw [Option.map_eq_some'] at h1
      obtain ⟨a, _, ha⟩ := h1
      rw [← ha]
      rfl
    · split at h
      · cases h
      · split at h
        · rename_i hdig
          rw [Option.some.injEq, Prod.mk.injEq] at h
          obtain ⟨h1, _⟩ := h
          rw [Option.map_eq_some'] at h1
          obtain ⟨a, ha1, ha⟩ := h1
          have := read_number_digit_nonneg hdig
            (show read_number s1 = (some a, (read_number s1).2) by
              rw [← ha1])
          rw [← ha]
          simp only [keyOk]
          exact decide_eq_true this
        · split at h
          · rw [Option.some.injEq, Prod.mk.injEq] at h
            obtain ⟨h1, _⟩ := h
            cases h1
            rfl
          · cases h

end DictifyJs

namespace DictifyJs

/-- The keys-are-ok predicate on the loop accumulator. -/
def accKeysOk : Acc → Bool
  | .inl es => allEntries (fun _ => true) keyOk es
  | .inr l => allElems (fun _ => true) keyOk l

theorem accKeysOk_value {acc : Acc} (h : accKeysOk acc = true) :
    keysOk (accValue acc) = true := by
  cases acc with
  | inl es =>
    simp only [accValue, keysOk, allNodes, Bool.and_eq_true]
    exact ⟨trivial, h⟩
  | inr l =>
    simp only [accValue, keysOk, allNodes, Bool.and_eq_true]
    exact ⟨trivial, h⟩

/-- Every key anywhere inside a value produced by the parse cluster is a string or
a non-negative number. -/
theorem cluster_keysOk : ∀ fuel : Nat,
    (∀ s r v, read_value fuel s = some r → r.1 = some v → keysOk v = true) ∧
    (∀ s r v, parse_structure fuel s = some r → r.1 = some v → keysOk v = true) ∧
    (∀ acc s r acc', accKeysOk acc = true → parse_loop fuel acc s = some r →
      r.1 = some acc' → accKeysOk acc' = true) ∧
    (∀ acc s r acc', accKeysOk acc = true → parse_after fuel acc s = some r →
      r.1 = some acc' → accKeysOk acc' = true) := by
  intro fuel
  induction fuel with
  | zero =>
    refine ⟨?_, ?_, ?_, ?_⟩ <;> intro _ <;> intros <;> simp [read_value, parse_structure,
      parse_loop, parse_after] at *
  | succ n ih =>
    obtain ⟨ihv, ihs, ihl, iha⟩ := ih
    have hrec : ∀ (s2 : St) (stopSet : List Char) (cend : Option Char) (acc : Acc)
        (r : Option Acc × St) (acc' : Acc) (hacc : accKeysOk acc = true)
        (h : (if (skip_invalid s2 stopSet cend).1 = some (accEnd acc) then
                some (some acc, (skip_invalid s2 stopSet cend).2) else
              if (skip_invalid s2 stopSet cend).1 = none then
                some (none, (skip_invalid s2 stopSet cend).2) else
              parse_loop n acc (skip_invalid s2 stopSet cend).2) = some r)
        (hr : r.1 = some acc'), accKeysOk acc' = true := by
      intro s2 stopSet cend acc r acc' hacc h hr
      split at h
      · cases h
        rw [Option.some.injEq] at hr
        rw [← hr]
        exact hacc
      · split at h
        · cases h
          cases hr
        · exact ihl _ _ _ _ hacc h hr
    refine ⟨?_, ?_, ?_, ?_⟩
    · -- read_value
      intro s r v h hr
      rw [read_value] at h
      rcases hsk : skip_to_valid (n + 1) s with _ | s1
      · rw [hsk] at h; cases h
      · rw [hsk] at h
        try simp only [Option.some_bind] at h
        split at h
        · cases h
          simp only at hr
          rw [Option.map_eq_some'] at hr
          obtain ⟨a, _, ha⟩ := hr
          rw [← ha]
          rfl
        · split at h
          · cases h; cases hr
          · split at h
            · cases h
              simp only at hr
              rw [Option.map_eq_some'] at hr
              obtain ⟨a, _, ha⟩ := hr
              rw [← ha]
              rfl
            · split at h
              · cases h; cases hr; rfl
              · split at h
                · cases h; cases hr; rfl
                · split at h
                  · cases h; cases hr; rfl
                  · split at h
                    · exact ihs _ _ _ h hr
                    · split at h
                      · exact ihs _ _ _ h hr
                      · cases h; cases hr
    · -- parse_structure
      intro s r v h hr
      rw [parse_structure] at h
      rcases hsk : skip_to_valid (n + 1) s with _ | s0
      · rw [hsk] at h; cases h
      · rw [hsk] at h
        try simp only [Option.some_bind] at h
        split at h
        · rw [Option.map_eq_some'] at h
          obtain ⟨rl, hpl, hf⟩ := h
          subst hf
          simp only at hr
          rw [Option.map_eq_some'] at hr
          obtain ⟨acc', hacc', hval⟩ := hr
          have h0 : accKeysOk (if pyEq s0.current lbrace = true then
              Sum.inl ([] : List (Key × Value)) else Sum.inr ([] : List Value)) = true := by
            split <;> rfl
          have := ihl _ _ _ _ h0 hpl hacc'
          rw [← hval]
          exact accKeysOk_value this
        · cases h; cases hr
    · -- parse_loop
      intro acc s r acc' hacc h hr
      rw [parse_loop] at h
      rcases hsk : skip_to_valid (n + 1) s with _ | s1
      · rw [hsk] at h; cases h
      · rw [hsk] at h
        try simp only [Option.some_bind] at h
        split at h
        · cases h
          rw [Option.some.injEq] at hr
          rw [← hr]; exact hacc
        · split at h
          · cases h; cases hr
          · split at h
            · -- dict branch
              rename List (Key × Value) => entries
              rcases hrk : read_key (n + 1) s1 with _ | kr
              · rw [hrk] at h; cases h
              · rw [hrk] at h
                try simp only [Option.some_bind] at h
                split at h
                · exact hrec kr.2 [',', rbrace] (some (accEnd (Sum.inl entries)))
                    (.inl entries) r acc' hacc h hr
                · rename_i key hkey
                  have hkr2 : read_key (n + 1) s1 = some (kr.1, kr.2) := hrk.trans rfl
                  rw [hkey] at hkr2
                  have hkok : keyOk key = true := read_key_keyOk hkr2
                  rcases hsk2 : skip_to_valid (n + 1) kr.2 with _ | s3
                  · rw [hsk2] at h; cases h
                  · rw [hsk2] at h
                    try simp only [Option.some_bind] at h
                    split at h
                    · rcases hrv : read_value n (s3.advance 1) with _ | vr
                      · rw [hrv] at h; cases h
                      · rw [hrv] at h
                        try simp only [Option.some_bind] at h
                        split at h
                        · -- value is the null sentinel
                          refine iha _ _ _ _ ?_ h hr
                          simp only [accKeysOk]
                          exact allEntries_store hacc hkok rfl
                        · -- ordinary value
                          rename Value => v
                          have hvk : keysOk v = true := ihv _ _ _ hrv (by assumption)
                          refine iha _ _ _ _ ?_ h hr
                          simp only [accKeysOk]
                          exact allEntries_store hacc hkok hvk
                        · exact hrec vr.2 [',', rbrace] (some (accEnd (Sum.inl entries)))
                            (.inl entries) r acc' hacc h hr
                    · exact hrec s3 [',', rbrace] (some (accEnd (Sum.inl entries)))
                        (.inl entries) r acc' hacc h hr
            · -- array branch
              rename List Value => elems
              rcases hrv : read_value n s1 with _ | vr
              · rw [hrv] at h; cases h
              · rw [hrv] at h
                try simp only [Option.some_bind] at h
                split at h
                · refine iha _ _ _ _ ?_ h hr
                  simp only [accKeysOk]
                  exact allElems_append hacc rfl
                · rename Value => v
                  have hvk : keysOk v = true := ihv _ _ _ hrv (by assumption)
                  refine iha _ _ _ _ ?_ h hr
                  simp only [accKeysOk]
                  exact allElems_append hacc hvk
                · exact hrec vr.2 [',', ']'] (some (accEnd (Sum.inr elems)))
                    (.inr elems) r acc' hacc h hr
    · -- parse_after
      intro acc s r acc' hacc h hr
      rw [parse_after] at h
      rcases hsk : skip_to_valid (n + 1) s with _ | s6
      · rw [hsk] at h; cases h
      · rw [hsk] at h
        try simp only [Option.some_bind] at h
        split at h
        · exact ihl _ _ _ _ hacc h hr
        · split at h
          · cases h
            rw [Option.some.injEq] at hr
            rw [← hr]; exact hacc
          · exact hrec s6 (if accIsDict acc then [',', rbrace] else [',', ']'])
              (some (accEnd acc)) acc r acc' hacc h hr

end DictifyJs

namespace DictifyJs

/-- C6 amended: every key of every object mapping produced by the structure parser
(including nested objects) is a string or a non-negative number — but the number
may be a Float: `read_key` delegates digit-initial keys to `read_number`, which
accepts fractional and exponent forms (counterexample `{3.14:1}`), while a bare
key can never begin with a minus sign, so negative keys are impossible. -/
theorem parse_structure_keys (fuel : Nat) (s : St) (r : Option Value × St) (v : Value)
    (h : parse_structure fuel s = some r) (hv : r.1 = some v) : keysOk v = true :=
  (cluster_keysOk fuel).2.1 s r v h hv

/-- Witness for `parse_structure_keys` at the float-keyed object `{3.14:1}`. -/
theorem parse_structure_keys_witness :
    keysOk (Value.obj [(Key.num (.float (mkRat 157 50)), Value.num (.int 1))]) = true :=
  parse_structure_keys 100 (initSt ("\x7b3.14:1\x7d".toList))
    (some (Value.obj [(Key.num (.float (mkRat 157 50)), Value.num (.int 1))]),
      St.mk ("\x7b3.14:1\x7d".toList) 8 0 0)
    (Value.obj [(Key.num (.float (mkRat 157 50)), Value.num (.int 1))]) rfl rfl

end DictifyJs

namespace DictifyJs

/-! ## The `_NULL_VALUE` sentinel never escapes -/

/-- The no-sentinel predicate on the loop accumulator. -/
def accNoSent : Acc → Bool
  | .inl es => allEntries notSent (fun _ => true) es
  | .inr l => allElems notSent (fun _ => true) l

theorem accNoSent_value {acc : Acc} (h : accNoSent acc = true) :
    noSent (accValue acc) = true := by
  cases acc with
  | inl es =>
    simp only [accValue, noSent, allNodes, Bool.and_eq_true]
    exact ⟨rfl, h⟩
  | inr l =>
    simp only [accValue, noSent, allNodes, Bool.and_eq_true]
    exact ⟨rfl, h⟩

/-- The parse cluster converts the sentinel to Null at the single storing point:
`read_value` may return the sentinel itself, but only at top level, and whatever
`parse_structure` returns — and everything stored inside an accumulator — is
sentinel-free. -/
theorem cluster_noSent : ∀ fuel : Nat,
    (∀ s r v, read_value fuel s = some r → r.1 = some v →
      v = .sentinel ∨ noSent v = true) ∧
    (∀ s r v, parse_structure fuel s = some r → r.1 = some v → noSent v = true) ∧
    (∀ acc s r acc', accNoSent acc = true → parse_loop fuel acc s = some r →
      r.1 = some acc' → accNoSent acc' = true) ∧
    (∀ acc s r acc', accNoSent acc = true → parse_after fuel acc s = some r →
      r.1 = some acc' → accNoSent acc' = true) := by
  intro fuel
  induction fuel with
  | zero =>
    refine ⟨?_, ?_, ?_, ?_⟩ <;> intro _ <;> intros <;> simp [read_value, parse_structure,
      parse_loop, parse_after] at *
  | succ n ih =>
    obtain ⟨ihv, ihs, ihl, iha⟩ := ih
    have hrec : ∀ (s2 : St) (stopSet : List Char) (cend : Option Char) (acc : Acc)
        (r : Option Acc × St) (acc' : Acc) (hacc : accNoSent acc = true)
        (h : (if (skip_invalid s2 stopSet cend).1 = some (accEnd acc) then
                some (some acc, (skip_invalid s2 stopSet cend).2) else
              if (skip_invalid s2 stopSet cend).1 = none then
                some (none, (skip_invalid s2 stopSet cend).2) else
              parse_loop n acc (skip_invalid s2 stopSet cend).2) = some r)
        (hr : r.1 = some acc'), accNoSent acc' = true := by
      intro s2 stopSet cend acc r acc' hacc h hr
      split at h
      · cases h
        rw [Option.some.injEq] at hr
        rw [← hr]
        exact hacc
      · split at h
        · cases h
          cases hr
        · exact ihl _ _ _ _ hacc h hr
    refine ⟨?_, ?_, ?_, ?_⟩
    · -- read_value
      intro s r v h hr
      rw [read_value] at h
      rcases hsk : skip_to_valid (n + 1) s with _ | s1
      · rw [hsk] at h; cases h
      · rw [hsk] at h
        try simp only [Option.some_bind] at h
        split at h
        · cases h
          simp only at hr
          rw [Option.map_eq_some'] at hr
          obtain ⟨a, _, ha⟩ := hr
          rw [← ha]
          exact Or.inr rfl
        · split at h
          · cases h; cases hr
          · split at h
            · cases h
              simp only at hr
              rw [Option.map_eq_some'] at hr
              obtain ⟨a, _, ha⟩ := hr
              rw [← ha]
              exact Or.inr rfl
            · split at h
              · cases h; cases hr; exact Or.inr rfl
              · split at h
                · cases h; cases hr; exact Or.inr rfl
                · split at h
                  · cases h; cases hr; exact Or.inl rfl
                  · split at h
                    · exact Or.inr (ihs _ _ _ h hr)
                    · split at h
                      · exact Or.inr (ihs _ _ _ h hr)
                      · cases h; cases hr
    · -- parse_structure
      intro s r v h hr
      rw [parse_structure] at h
      rcases hsk : skip_to_valid (n + 1) s with _ | s0
      · rw [hsk] at h; cases h
      · rw [hsk] at h
        try simp only [Option.some_bind] at h
        split at h
        · rw [Option.map_eq_some'] at h
          obtain ⟨rl, hpl, hf⟩ := h
          subst hf
          simp only at hr
          rw [Option.map_eq_some'] at hr
          obtain ⟨acc', hacc', hval⟩ := hr
          have h0 : accNoSent (if pyEq s0.current lbrace = true then
              Sum.inl ([] : List (Key × Value)) else Sum.inr ([] : List Value)) = true := by
            split <;> rfl
          have := ihl _ _ _ _ h0 hpl hacc'
          rw [← hval]
          exact accNoSent_value this
        · cases h; cases hr
    · -- parse_loop
      intro acc s r acc' hacc h hr
      rw [parse_loop] at h
      rcases hsk : skip_to_valid (n + 1) s with _ | s1
      · rw [hsk] at h; cases h
      · rw [hsk] at h
        try simp only [Option.some_bind] at h
        split at h
        · cases h
          rw [Option.some.injEq] at hr
          rw [← hr]; exact hacc
        · split at h
          · cases h; cases hr
          · split at h
            · -- dict branch
              rename List (Key × Value) => entries
              rcases hrk : read_key (n + 1) s1 with _ | kr
              · rw [hrk] at h; cases h
              · rw [hrk] at h
                try simp only [Option.some_bind] at h
                split at h
                · exact hrec kr.2 [',', rbrace] (some (accEnd (Sum.inl entries)))
                    (.inl entries) r acc' hacc h hr
                · rcases hsk2 : skip_to_valid (n + 1) kr.2 with _ | s3
                  · rw [hsk2] at h; cases h
                  · rw [hsk2] at h
                    try simp only [Option.some_bind] at h
                    split at h
                    · rcases hrv : read_value n (s3.advance 1) with _ | vr
                      · rw [hrv] at h; cases h
                      · rw [hrv] at h
                        try simp only [Option.some_bind] at h
                        split at h
                        · -- value is the null sentinel: stored as Null
                          refine iha _ _ _ _ ?_ h hr
                          simp only [accNoSent]
                          exact allEntries_store hacc rfl rfl
                        · -- ordinary value
                          rename Value => v
                          rcases ihv _ _ _ hrv (by assumption) with hsent | hns
                          · exact absurd hsent (by assumption)
                          · refine iha _ _ _ _ ?_ h hr
                            simp only [accNoSent]
                            exact allEntries_store hacc rfl hns
                        · exact hrec vr.2 [',', rbrace] (some (accEnd (Sum.inl entries)))
                            (.inl entries) r acc' hacc h hr
                    · exact hrec s3 [',', rbrace] (some (accEnd (Sum.inl entries)))
                        (.inl entries) r acc' hacc h hr
            · -- array branch
              rename List Value => elems
              rcases hrv : read_value n s1 with _ | vr
              · rw [hrv] at h; cases h
              · rw [hrv] at h
                try simp only [Option.some_bind] at h
                split at h
                · refine iha _ _ _ _ ?_ h hr
                  simp only [accNoSent]
                  exact allElems_append hacc rfl
                · rename Value => v
                  rcases ihv _ _ _ hrv (by assumption) with hsent | hns
                  · exact absurd hsent (by assumption)
                  · refine iha _ _ _ _ ?_ h hr
                    simp only [accNoSent]
                    exact allElems_append hacc hns
                · exact hrec vr.2 [',', ']'] (some (accEnd (Sum.inr elems)))
                    (.inr elems) r acc' hacc h hr
    · -- parse_after
      intro acc s r acc' hacc h hr
      rw [parse_after] at h
      rcases hsk : skip_to_valid (n + 1) s with _ | s6
      · rw [hsk] at h; cases h
      · rw [hsk] at h
        try simp only [Option.some_bind] at h
        split at h
        · exact ihl _ _ _ _ hacc h hr
        · split at h
          · cases h
            rw [Option.some.injEq] at hr
            rw [← hr]; exact hacc
          · exact hrec s6 (if accIsDict acc then [',', rbrace] else [',', ']'])
              (some (accEnd acc)) acc r acc' hacc h hr

end DictifyJs

namespace DictifyJs

/-- A successful assignment's value comes from `parse_structure` and is
sentinel-free. -/
theorem try_parse_assignment_noSent {fuel : Nat} {s : St} {nm : List Char}
    {v : Value} {s' : St}
    (h : try_parse_assignment fuel s = some (some (nm, v), s')) :
    noSent v = true := by
  rw [try_parse_assignment] at h
  rcases hsk : skip_to_valid fuel s with _ | s1
  · rw [hsk] at h; cases h
  · rw [hsk] at h
    try simp only [Option.some_bind] at h
    split at h
    · cases h
    · split at h
      · cases h
      · rcases hid : read_identifier fuel _ with _ | ir
        · rw [hid] at h; cases h
        · rw [hid] at h
          try simp only [Option.some_bind] at h
          split at h
          · cases h
          · rename_i name hro
            split at h
            · cases h
            · rcases hsk2 : skip_to_valid fuel ir.2 with _ | s4
              · rw [hsk2] at h; cases h
              · rw [hsk2] at h
                try simp only [Option.some_bind] at h
                have htail : ∀ s5 : St,
                    ((if pyEq s5.current '=' = true then
                        (skip_to_valid fuel (s5.advance 1)).bind fun a =>
                          if pyMem a.current [lbrace, '['] = true then
                            (parse_structure fuel a).bind fun pr =>
                              match pr.1 with
                              | none => some (none, pr.2.withIndex s.index)
                              | some v => some (some (name, v), pr.2)
                          else some (none, a.withIndex s.index)
                      else some (none, s5.withIndex s.index)) = some (some (nm, v), s')) →
                    noSent v = true := by
                  intro s5 h
                  split at h
                  · rcases hsk3 : skip_to_valid fuel (s5.advance 1) with _ | s7
                    · rw [hsk3] at h; cases h
                    · rw [hsk3] at h
                      try simp only [Option.some_bind] at h
                      split at h
                      · rcases hps : parse_structure fuel s7 with _ | pr
                        · rw [hps] at h; cases h
                        · rw [hps] at h
                          try simp only [Option.some_bind] at h
                          split at h
                          · cases h
                          · rename_i v0 hv0
                            rw [Option.some.injEq, Prod.mk.injEq] at h
                            obtain ⟨h1, _⟩ := h
                            rw [Option.some.injEq, Prod.mk.injEq] at h1
                            obtain ⟨_, h2⟩ := h1
                            subst h2
                            exact (cluster_noSent fuel).2.1 _ _ _
                              (show parse_structure fuel s7 = some (pr.1, pr.2) from hps)
                              (by assumption)
                      · cases h
                  · cases h
                split at h
                · exact htail _ h
                · exact htail _ h

end DictifyJs

namespace DictifyJs

theorem mem_store_result {rs : List (List Char × Value)} {nm : List Char} {v : Value}
    {p : List Char × Value} (hp : p ∈ store_result rs nm v) : p ∈ rs ∨ p.2 = v := by
  rw [store_result] at hp
  split at hp
  · rw [List.mem_map] at hp
    obtain ⟨q, hq, hpq⟩ := hp
    revert hpq
    split
    · intro hpq
      rw [← hpq]
      exact Or.inr rfl
    · intro hpq
      rw [← hpq]
      exact Or.inl hq
  · rw [List.mem_append] at hp
    rcases hp with hp | hp
    · exact Or.inl hp
    · rw [List.mem_singleton] at hp
      rw [hp]
      exact Or.inr rfl

theorem parse_file_loop_noSent :
    ∀ (fuel : Nat) (s : St) (rs rs' : List (List Char × Value)),
      (∀ p ∈ rs, noSent p.2 = true) → parse_file_loop fuel s rs = some rs' →
      ∀ p ∈ rs', noSent p.2 = true := by
  intro fuel
  induction fuel with
  | zero => intro s rs rs' hrs h; cases h
  | succ n ih =>
    intro s rs rs' hrs h
    rw [parse_file_loop] at h
    split at h
    · rcases hsk : skip_to_valid (n + 1) s with _ | s1
      · rw [hsk] at h; cases h
      · rw [hsk] at h
        try simp only [Option.some_bind] at h
        rcases hta : try_parse_assignment (n + 1) s1 with _ | ar
        · rw [hta] at h; cases h
        · rw [hta] at h
          try simp only [Option.some_bind] at h
          split at h
          · rename_i nm v har
            have hta2 : try_parse_assignment (n + 1) s1 = some (ar.1, ar.2) := hta.trans rfl
            rw [har] at hta2
            have hns : noSent v = true := try_parse_assignment_noSent hta2
            split at h
            · split at h
              · refine ih _ _ _ ?_ h
                intro p hp
                rcases mem_store_result hp with hmem | hval
                · exact hrs p hmem
                · rw [hval]
                  exact hns
              · exact ih _ _ _ hrs h
            · exact ih _ _ _ hrs h
          · exact ih _ _ _ hrs h
    · cases h
      exact hrs

/-- C10: the internal explicit-null sentinel never escapes: every value reachable
inside the mapping returned by `parse_file` — recursively through nested objects
and arrays — is a plain data value, never the `_NULL_VALUE` sentinel; the sentinel
is converted to Null at the single point where a member is stored. -/
theorem parse_file_no_sentinel (fuel : Nat) (text : List Char)
    (rs : List (List Char × Value)) (h : parse_file fuel text = some rs)
    (p : List Char × Value) (hp : p ∈ rs) : noSent p.2 = true := by
  rw [parse_file] at h
  exact parse_file_loop_noSent fuel _ [] rs (by intro q hq; cases hq) h p hp

/-- Witness for `parse_file_no_sentinel`: the only entry produced for
`const x = { a: null }` — whose stored value contains an explicit Null — is
sentinel-free. -/
theorem parse_file_no_sentinel_witness :
    noSent (("x".toList, Value.obj [(Key.str ("a".toList), Value.null)]) :
      List Char × Value).2 = true :=
  parse_file_no_sentinel 200 ("const x = \x7b a: null \x7d".toList)
    [(("x".toList), Value.obj [(Key.str ("a".toList), Value.null)])] rfl
    (("x".toList), Value.obj [(Key.str ("a".toList), Value.null)])
    (by simp)

end DictifyJs

namespace DictifyJs

/-- The closer matching an opening bracket. -/
def closerFor (c : Char) : Char :=
  if c = lbrace then rbrace else if c = '[' then ']' else ')'

/-- `okGarb g st` holds when `g` is a well-bracketed unsupported-construct
fragment relative to the stack `st` of pending closers: every closer matches the
innermost open bracket, no quote, backtick or backslash occurs, and neither a
comma nor any closer appears while the stack is empty. -/
def okGarb : List Char → List Char → Bool
  | [], st => st.isEmpty
  | c :: g, st =>
    if c = lbrace ∨ c = '[' ∨ c = '(' then okGarb g (closerFor c :: st)
    else if c = rbrace ∨ c = ']' ∨ c = ')' then
      match st with
      | [] => false
      | s :: st' => decide (c = s) && okGarb g st'
    else if c = '"' ∨ c = squote ∨ c = btick ∨ c = '\\' then false
    else if st.isEmpty ∧ c = ',' then false
    else okGarb g st

/-- One-step unfolding of `okGarb` on a non-empty fragment. -/
theorem okGarb_cons (c : Char) (g st : List Char) :
    okGarb (c :: g) st =
    (if c = lbrace ∨ c = '[' ∨ c = '(' then okGarb g (closerFor c :: st)
    else if c = rbrace ∨ c = ']' ∨ c = ')' then
      match st with
      | [] => false
      | s :: st' => decide (c = s) && okGarb g st'
    else if c = '"' ∨ c = squote ∨ c = btick ∨ c = '\\' then false
    else if st.isEmpty ∧ c = ',' then false
    else okGarb g st) := by
  cases st <;> rfl

/-- The recovery scanner on a balanced garbage fragment followed by a comma:
started at local depth `st.length` with the global counters offset by the open
brackets recorded in `st`, it consumes exactly the fragment and the comma,
reports the comma as the found stop character, and restores both counters. -/
theorem skip_invalid_loop_garb (cend : Option Char) (sb sk : Option Int) :
    ∀ (g st rest : List Char) (B K : Int), okGarb g st = true → 0 ≤ B → 0 ≤ K →
      skip_invalid_loop [',', rbrace] cend sb sk (g ++ ',' :: rest)
        st.length none (B + st.count rbrace) (K + st.count ']') =
      (some ',', g.length + 1, B, K) := by
  intro g
  induction g with
  | nil =>
    intro st rest B K hok hB hK
    have hst : st = [] := by
      rw [okGarb] at hok
      exact List.isEmpty_iff.mp hok
    subst hst
    rw [List.nil_append, skip_invalid_loop_cons]
    simp +decide
  | cons c g ih =>
    intro st rest B K hok hB hK
    rw [okGarb_cons] at hok
    rw [List.cons_append]
    by_cases h1 : c = lbrace ∨ c = '[' ∨ c = '('
    · rw [if_pos h1] at hok
      have hrec := ih (closerFor c :: st) rest B K hok hB hK
      rcases h1 with hc | hc | hc <;> subst hc
      · have hcf : closerFor lbrace = rbrace := by decide
        rw [hcf] at hrec
        simp +decide only [List.length_cons, List.count_cons, Nat.cast_add,
          Nat.cast_one, Nat.cast_zero, add_zero, if_true, if_false] at hrec
        simp +decide only [skip_invalid_loop_cons, List.length_cons, List.count_cons,
          Nat.cast_add, Nat.cast_one, Nat.cast_zero, add_zero, if_true, if_false]
        rw [show B + (st.count rbrace : Int) + 1 = B + ((st.count rbrace : Int) + 1) from
          by omega]
        rw [hrec]
      · have hcf : closerFor '[' = ']' := by decide
        rw [hcf] at hrec
        simp +decide only [List.length_cons, List.count_cons, Nat.cast_add,
          Nat.cast_one, Nat.cast_zero, add_zero, if_true, if_false] at hrec
        simp +decide only [skip_invalid_loop_cons, List.length_cons, List.count_cons,
          Nat.cast_add, Nat.cast_one, Nat.cast_zero, add_zero, if_true, if_false]
        rw [show K + (st.count ']' : Int) + 1 = K + ((st.count ']' : Int) + 1) from
          by omega]
        rw [hrec]
      · have hcf : closerFor '(' = ')' := by decide
        rw [hcf] at hrec
        simp +decide only [List.length_cons, List.count_cons, Nat.cast_add,
          Nat.cast_one, Nat.cast_zero, add_zero, if_true, if_false] at hrec
        simp +decide only [skip_invalid_loop_cons, List.length_cons, List.count_cons,
          Nat.cast_add, Nat.cast_one, Nat.cast_zero, add_zero, if_true, if_false]
        rw [hrec]
    · rw [if_neg h1] at hok
      by_cases h2 : c = rbrace ∨ c = ']' ∨ c = ')'
      · rw [if_pos h2] at hok
        cases st with
        | nil => exact Bool.noConfusion hok
        | cons s st' =>
          simp only [Bool.and_eq_true, decide_eq_true_eq] at hok
          obtain ⟨hcs, hok'⟩ := hok
          subst hcs
          have hrec := ih st' rest B K hok' hB hK
          rcases h2 with hc | hc | hc <;> subst hc
          · have hc1 : (((rbrace :: st').count rbrace : Nat) : Int) =
                (st'.count rbrace : Int) + 1 := by
              simp [List.count_cons]
            have hc2 : (((rbrace :: st').count ']' : Nat) : Int) = (st'.count ']' : Int) := by
              simp +decide [List.count_cons]
            simp only [List.length_cons]
            rw [hc1, hc2]
            simp +decide only [skip_invalid_loop_cons, if_true, if_false]
            rw [if_pos (Nat.succ_pos st'.length)]
            rw [max_eq_right (by omega :
              (0 : Int) ≤ B + ((st'.count rbrace : Int) + 1) - 1)]
            rw [show B + ((st'.count rbrace : Int) + 1) - 1 = B + (st'.count rbrace : Int)
              from by omega]
            rw [Nat.add_sub_cancel]
            rw [hrec]
          · have hc1 : (((']' :: st').count rbrace : Nat) : Int) = (st'.count rbrace : Int) := by
              simp +decide [List.count_cons]
            have hc2 : (((']' :: st').count ']' : Nat) : Int) = (st'.count ']' : Int) + 1 := by
              simp [List.count_cons]
            simp only [List.length_cons]
            rw [hc1, hc2]
            simp +decide only [skip_invalid_loop_cons, if_true, if_false]
            rw [if_pos (Nat.succ_pos st'.length)]
            rw [max_eq_right (by omega :
              (0 : Int) ≤ K + ((st'.count ']' : Int) + 1) - 1)]
            rw [show K + ((st'.count ']' : Int) + 1) - 1 = K + (st'.count ']' : Int)
              from by omega]
            rw [Nat.add_sub_cancel]
            rw [hrec]
          · have hc1 : (((')' :: st').count rbrace : Nat) : Int) = (st'.count rbrace : Int) := by
              simp +decide [List.count_cons]
            have hc2 : (((')' :: st').count ']' : Nat) : Int) = (st'.count ']' : Int) := by
              simp +decide [List.count_cons]
            simp only [List.length_cons]
            rw [hc1, hc2]
            simp +decide only [skip_invalid_loop_cons, if_true, if_false]
            rw [if_pos (Nat.succ_pos st'.length)]
            rw [Nat.add_sub_cancel]
            rw [hrec]
      · rw [if_neg h2] at hok
        by_cases h3 : c = '"' ∨ c = squote ∨ c = btick ∨ c = '\\'
        · rw [if_pos h3] at hok
          exact absurd hok (by decide)
        · rw [if_neg h3] at hok
          by_cases h4 : st.isEmpty = true ∧ c = ','
          · rw [if_pos h4] at hok
            exact absurd hok (by decide)
          · rw [if_neg h4] at hok
            have hrec := ih st rest B K hok hB hK
            simp only [skip_invalid_loop_cons]
            rw [if_neg (fun h => h3 (Or.inr (Or.inr (Or.inr h))))]
            rw [if_neg (fun h => h3 (h.imp id (fun h2 => h2.imp id Or.inl)))]
            rw [if_neg h1]
            rw [if_neg h2]
            rw [if_neg (fun hst : st.length = 0 ∧ c ∈ [',', rbrace] => by
              obtain ⟨hd, hmem⟩ := hst
              have hnil : st = [] := List.eq_nil_of_length_eq_zero hd
              simp only [List.mem_cons, List.not_mem_nil, or_false] at hmem
              rcases hmem with hm | hm
              · exact h4 ⟨by simp [hnil], hm⟩
              · exact h2 (Or.inl hm))]
            rw [hrec]
            simp

end DictifyJs

namespace DictifyJs

/-- Lifting the resynchronization lemma to `skip_invalid`: from a state whose
remaining input is a balanced garbage fragment followed by a comma, recovery with
stop set comma/closing-brace and container end closing-brace stops exactly at that
comma, consuming the fragment and the comma, and leaves both depth counters
unchanged. -/
theorem skip_invalid_resync (s : St) (g rest : List Char)
    (hrem : s.remaining = g ++ ',' :: rest) (hok : okGarb g [] = true)
    (hb : 0 ≤ s.braceDepth) (hk : 0 ≤ s.bracketDepth) :
    skip_invalid s [',', rbrace] (some rbrace) =
      (some ',', { s with index := s.index + (g.length + 1) }) := by
  have h := skip_invalid_loop_garb (some rbrace) (some s.braceDepth) none g [] rest
    s.braceDepth s.bracketDepth hok hb hk
  simp only [List.length_nil, List.count_nil, Nat.cast_zero, add_zero] at h
  rw [skip_invalid]
  simp +decide only [if_true, if_false]
  rw [hrem, h]

end DictifyJs

namespace DictifyJs

/-- C1: recovery is correctly scoped to the current container.  Generally: for
every state whose remaining input starts with a balanced unsupported construct
`g` (well-bracketed, no quotes, and no comma or closer at its outermost level —
nested braces allowed) followed by a comma, the recovery skipper
`skip_invalid` with the object's stop set resynchronizes exactly at that
member-separating comma, not at any closing brace inside `g`, and restores the
depth counters.  In particular, parsing `\x7b a: 1, b: fn(\x7bx:1\x7d), c: 3 \x7d`
yields the mapping a ↦ 1, c ↦ 3, retaining the members before and after the
dropped one. -/
theorem recovery_scoped (s : St) (g rest : List Char)
    (hrem : s.remaining = g ++ ',' :: rest) (hok : okGarb g [] = true)
    (hb : 0 ≤ s.braceDepth) (hk : 0 ≤ s.bracketDepth) :
    skip_invalid s [',', rbrace] (some rbrace) =
      (some ',', { s with index := s.index + (g.length + 1) }) ∧
    (parse_structure 100 (initSt ("\x7b a: 1, b: fn(\x7bx:1\x7d), c: 3 \x7d".toList))).map
        (fun r => r.1) =
      some (some (.obj [(Key.str ['a'], .num (.int 1)), (Key.str ['c'], .num (.int 3))])) :=
  ⟨skip_invalid_resync s g rest hrem hok hb hk, rfl⟩

/-- Witness for C1 at the concrete garbage fragment `fn(\x7bx:1\x7d)`. -/
theorem recovery_scoped_witness :
    (St.mk ("fn(\x7bx:1\x7d),1".toList) 0 0 0).remaining =
        ("fn(\x7bx:1\x7d)".toList) ++ ',' :: ['1'] ∧
    okGarb ("fn(\x7bx:1\x7d)".toList) [] = true ∧
    skip_invalid (St.mk ("fn(\x7bx:1\x7d),1".toList) 0 0 0) [',', rbrace] (some rbrace) =
      (some ',', { St.mk ("fn(\x7bx:1\x7d),1".toList) 0 0 0 with
        index := 0 + (("fn(\x7bx:1\x7d)".toList).length + 1) }) :=
  ⟨rfl, by decide,
    (recovery_scoped (St.mk ("fn(\x7bx:1\x7d),1".toList) 0 0 0)
      ("fn(\x7bx:1\x7d)".toList) ['1'] rfl (by decide) (by decide) (by decide)).1⟩

end DictifyJs

namespace DictifyJs

/-! ## C4: a structure with no closer in the remaining input yields no value -/

/-- No closing brace and no closing bracket occurs in the list: end of input is
necessarily reached before the closer of any structure parsed from here. -/
def closerFree (l : List Char) : Bool :=
  l.all (fun c => !(c == rbrace) && !(c == ']'))

theorem closerFree_suffix {l : List Char} (n : Nat) (h : closerFree l = true) :
    closerFree (l.drop n) = true := by
  rw [closerFree, List.all_eq_true] at *
  intro x hx
  exact h x (List.drop_subset _ _ hx)

theorem closerFree_mono {s t : St} (htext : t.text = s.text) (hle : s.index ≤ t.index)
    (h : closerFree s.remaining = true) : closerFree t.remaining = true := by
  have hrem : t.remaining = s.remaining.drop (t.index - s.index) := by
    rw [St.remaining, St.remaining, htext, List.drop_drop]
    congr 1
    omega
  rw [hrem]
  exact closerFree_suffix _ h

theorem not_mem_closerFree {l : List Char} (h : closerFree l = true) {ch : Char}
    (hch : ch = rbrace ∨ ch = ']') : ch ∉ l := by
  rw [closerFree, List.all_eq_true] at h
  intro hm
  have hx := h ch hm
  rcases hch with hc | hc <;> subst hc <;> simp at hx

theorem pyEq_closer_false {s : St} (h : closerFree s.remaining = true) (acc : Acc) :
    pyEq s.current (accEnd acc) = false := by
  rcases hrem : s.remaining with _ | ⟨c, t⟩
  · rw [current_eq_head?, hrem]
    cases acc <;> rfl
  · rw [current_eq_head?, hrem]
    rw [hrem] at h
    rw [closerFree, List.all_cons] at h
    simp only [Bool.and_eq_true, Bool.not_eq_true', beq_eq_false_iff_ne, ne_eq] at h
    obtain ⟨⟨h1, h2⟩, _⟩ := h
    simp only [List.head?, pyEq, decide_eq_false_iff_not]
    cases acc <;> simp only [accEnd] <;> intro heq <;> injection heq with heq
    · exact h1 heq
    · exact h2 heq

/-- The stop character reported by the recovery scanner is an element of the
scanned input. -/
theorem skip_invalid_loop_finds (stop : List Char) (cend : Option Char)
    (sb sk : Option Int) :
    ∀ (n : Nat) (l : List Char), l.length ≤ n →
      ∀ (d : Nat) (q : Option Char) (b k : Int) (c : Char),
      (skip_invalid_loop stop cend sb sk l d q b k).1 = some c → c ∈ l := by
  intro n
  induction n with
  | zero =>
    intro l hl d q b k c h
    have : l = [] := by
      cases l
      · rfl
      · simp at hl
    subst this
    rw [skip_invalid_loop.eq_1] at h
    cases h
  | succ m ih =>
    intro l hl d q b k c h
    cases l with
    | nil =>
      rw [skip_invalid_loop.eq_1] at h
      cases h
    | cons c0 t =>
      simp only [List.length_cons] at hl
      rw [skip_invalid_loop_cons] at h
      repeat' split at h
      all_goals try dsimp only at h
      all_goals repeat' split at h
      all_goals try dsimp only at h
      all_goals
        first
        | (exact List.mem_cons_of_mem _
            (ih _ (by omega) _ _ _ _ _ h))
        | (exact List.mem_cons_of_mem _ (List.mem_cons_of_mem _
            (ih _ (by simp only [List.length_cons] at hl; omega) _ _ _ _ _ h)))
        | (cases h <;> exact List.mem_cons_self _ _)

theorem skip_invalid_finds {s : St} {stop : List Char} {cend : Option Char} {c : Char}
    (h : (skip_invalid s stop cend).1 = some c) : c ∈ s.remaining := by
  simp only [skip_invalid] at h
  exact skip_invalid_loop_finds _ _ _ _ s.remaining.length _ (le_refl _) _ _ _ _ _ h

/-- Over the whole mutual cluster: when the remaining input contains no closing
brace or bracket, a completed structure parse produces no value ever — not a
partial object or array. -/
theorem cluster_closerFree : ∀ fuel : Nat,
    (∀ s r, closerFree s.remaining = true → parse_structure fuel s = some r →
      r.1 = none) ∧
    (∀ acc s r, closerFree s.remaining = true → parse_loop fuel acc s = some r →
      r.1 = none) ∧
    (∀ acc s r, closerFree s.remaining = true → parse_after fuel acc s = some r →
      r.1 = none) := by
  intro fuel
  induction fuel with
  | zero =>
    refine ⟨?_, ?_, ?_⟩ <;> intro _ <;> intros <;>
      simp [parse_structure, parse_loop, parse_after] at *
  | succ n ih =>
    obtain ⟨ihs, ihl, iha⟩ := ih
    have hrec : ∀ (s2 : St) (stopSet : List Char) (acc : Acc) (r : Option Acc × St)
        (bad : Option Char × St → Option Acc × St),
        closerFree s2.remaining = true →
        (if (skip_invalid s2 stopSet (some (accEnd acc))).1 = some (accEnd acc) then
            some (bad (skip_invalid s2 stopSet (some (accEnd acc)))) else
          if (skip_invalid s2 stopSet (some (accEnd acc))).1 = none then
            some (none, (skip_invalid s2 stopSet (some (accEnd acc))).2) else
          parse_loop n acc (skip_invalid s2 stopSet (some (accEnd acc))).2) = some r →
        r.1 = none := by
      intro s2 stopSet acc r bad hcf h
      split at h
      · rename_i hfind
        exact absurd (skip_invalid_finds hfind)
          (not_mem_closerFree hcf (by cases acc <;> simp [accEnd]))
      · split at h
        · cases h; rfl
        · exact ihl acc _ r
            (closerFree_mono (skip_invalid_text _ _ _) (skip_invalid_index _ _ _) hcf) h
    refine ⟨?_, ?_, ?_⟩
    · -- parse_structure
      intro s r hcf h
      rw [parse_structure] at h
      rcases hsk : skip_to_valid (n + 1) s with _ | s0
      · rw [hsk] at h; cases h
      · rw [hsk] at h
        obtain ⟨m1, m2, _, _⟩ := skip_to_valid_mono _ _ _ hsk
        have hcf0 : closerFree s0.remaining = true := closerFree_mono m1 m2 hcf
        try simp only [Option.some_bind] at h
        split at h
        · rw [Option.map_eq_some'] at h
          obtain ⟨rl, hpl, hf⟩ := h
          subst hf
          have hcf2 : closerFree (s0.advance 1).remaining = true :=
            closerFree_mono (advance_text s0 1) (by simp only [advance_index]; omega) hcf0
          have hl : rl.1 = none := by
            refine ihl _ _ _ ?_ hpl
            split <;> exact hcf2
          simp [hl]
        · cases h; rfl
    · -- parse_loop
      intro acc s r hcf h
      rw [parse_loop] at h
      rcases hsk : skip_to_valid (n + 1) s with _ | s1
      · rw [hsk] at h; cases h
      · rw [hsk] at h
        obtain ⟨m1, m2, _, _⟩ := skip_to_valid_mono _ _ _ hsk
        have hcf1 : closerFree s1.remaining = true := closerFree_mono m1 m2 hcf
        try simp only [Option.some_bind] at h
        split at h
        · rename_i hcond
          rw [pyEq_closer_false hcf1 acc] at hcond
          exact Bool.noConfusion hcond
        · split at h
          · cases h; rfl
          · split at h
            · -- dict branch
              rename List (Key × Value) => entries
              rcases hrk : read_key (n + 1) s1 with _ | kr
              · rw [hrk] at h; cases h
              · rw [hrk] at h
                try simp only [Option.some_bind] at h
                obtain ⟨k1, k2, _, _⟩ := read_key_mono
                  (show read_key (n + 1) s1 = some (kr.1, kr.2) from hrk)
                have hcfk : closerFree kr.2.remaining = true := closerFree_mono k1 k2 hcf1
                split at h
                · exact hrec kr.2 [',', rbrace] (Sum.inl entries) r
                    (fun p => (some (Sum.inl entries), p.2)) hcfk h
                · rcases hsk2 : skip_to_valid (n + 1) kr.2 with _ | s3
                  · rw [hsk2] at h; cases h
                  · rw [hsk2] at h
                    obtain ⟨q1, q2, _, _⟩ := skip_to_valid_mono _ _ _ hsk2
                    have hcf3 : closerFree s3.remaining = true :=
                      closerFree_mono q1 q2 hcfk
                    try simp only [Option.some_bind] at h
                    split at h
                    · rcases hrv : read_value n (s3.advance 1) with _ | vr
                      · rw [hrv] at h; cases h
                      · rw [hrv] at h
                        try simp only [Option.some_bind] at h
                        obtain ⟨v1, v2⟩ := (cluster_mono n).1 _ _ hrv
                        have hcfv : closerFree vr.2.remaining = true :=
                          closerFree_mono v1 v2
                            (closerFree_mono (advance_text s3 1) (by simp only [advance_index]; omega) hcf3)
                        split at h
                        · exact iha _ _ _ hcfv h
                        · exact iha _ _ _ hcfv h
                        · exact hrec vr.2 [',', rbrace] (Sum.inl entries) r
                            (fun p => (some (Sum.inl entries), p.2)) hcfv h
                    · exact hrec s3 [',', rbrace] (Sum.inl entries) r
                        (fun p => (some (Sum.inl entries), p.2)) hcf3 h
            · -- array branch
              rename List Value => elems
              rcases hrv : read_value n s1 with _ | vr
              · rw [hrv] at h; cases h
              · rw [hrv] at h
                try simp only [Option.some_bind] at h
                obtain ⟨v1, v2⟩ := (cluster_mono n).1 _ _ hrv
                have hcfv : closerFree vr.2.remaining = true :=
                  closerFree_mono v1 v2 hcf1
                split at h
                · exact iha _ _ _ hcfv h
                · exact iha _ _ _ hcfv h
                · exact hrec vr.2 [',', ']'] (Sum.inr elems) r
                    (fun p => (some (Sum.inr elems), p.2)) hcfv h
    · -- parse_after
      intro acc s r hcf h
      rw [parse_after] at h
      rcases hsk : skip_to_valid (n + 1) s with _ | s6
      · rw [hsk] at h; cases h
      · rw [hsk] at h
        obtain ⟨m1, m2, _, _⟩ := skip_to_valid_mono _ _ _ hsk
        have hcf6 : closerFree s6.remaining = true := closerFree_mono m1 m2 hcf
        try simp only [Option.some_bind] at h
        split at h
        · exact ihl _ _ _
            (closerFree_mono (advance_text s6 1) (by simp only [advance_index]; omega) hcf6) h
        · split at h
          · rename_i hcond
            rw [pyEq_closer_false hcf6 acc] at hcond
            exact Bool.noConfusion hcond
          · exact hrec s6 (if accIsDict acc then [',', rbrace] else [',', ']']) acc r
              (fun p => (some acc, p.2)) hcf6 h

end DictifyJs

namespace DictifyJs

/-- Under a closer-free remaining input, an assignment attempt can never produce
a structure value: either the keyword machinery mismatches, or the structure
parse completes without a value (the truncated structure), and in every case the
cursor is not moved backwards and the text is untouched. -/
theorem try_parse_assignment_closerFree (fuel : Nat) (s : St)
    (r : Option (List Char × Value) × St) (hcf : closerFree s.remaining = true)
    (h : try_parse_assignment fuel s = some r) :
    r.1 = none ∧ r.2.text = s.text ∧ s.index ≤ r.2.index := by
  rw [try_parse_assignment] at h
  rcases hsk : skip_to_valid fuel s with _ | s1
  · rw [hsk] at h; cases h
  · rw [hsk] at h
    obtain ⟨m1, m2, _, _⟩ := skip_to_valid_mono _ _ _ hsk
    try simp only [Option.some_bind] at h
    split at h
    · -- no keyword
      cases h
      exact ⟨rfl, m1, le_refl _⟩
    · rename_i s2 hkw
      have hs2 : s2.text = s.text ∧ s1.index + 3 ≤ s2.index := by
        split at hkw
        · cases hkw
          exact ⟨by simpa using m1, by simp only [advance_index]; omega⟩
        · split at hkw
          · cases hkw
            exact ⟨by simpa using m1, by simp only [advance_index]; omega⟩
          · split at hkw
            · cases hkw
              exact ⟨by simpa using m1, by simp only [advance_index]; omega⟩
            · cases hkw
      split at h
      · cases h
        exact ⟨rfl, hs2.1, le_refl _⟩
      · rcases hid : read_identifier fuel s2 with _ | ir
        · rw [hid] at h; cases h
        · rw [hid] at h
          try simp only [Option.some_bind] at h
          obtain ⟨i1, i2, _, _⟩ := read_identifier_mono
            (show read_identifier fuel s2 = some (ir.1, ir.2) from hid)
          have hirt : ir.2.text = s.text := i1.trans hs2.1
          split at h
          · cases h
            exact ⟨rfl, hirt, le_refl _⟩
          · rename Option (List Char) => ro
            rename_i name hro
            split at h
            · cases h
              exact ⟨rfl, hirt, le_refl _⟩
            · rcases hsk2 : skip_to_valid fuel ir.2 with _ | s4
              · rw [hsk2] at h; cases h
              · rw [hsk2] at h
                obtain ⟨q1, q2, _, _⟩ := skip_to_valid_mono _ _ _ hsk2
                have hs4t : s4.text = s.text := q1.trans hirt
                have hs4i : s.index + 3 ≤ s4.index := by omega
                try simp only [Option.some_bind] at h
                have htail : ∀ s5 : St, s5.text = s.text → s.index ≤ s5.index →
                    ((if pyEq s5.current '=' = true then
                        (skip_to_valid fuel (s5.advance 1)).bind fun a =>
                          if pyMem a.current [lbrace, '['] = true then
                            (parse_structure fuel a).bind fun pr =>
                              match pr.1 with
                              | none => some (none, pr.2.withIndex s.index)
                              | some v => some (some (name, v), pr.2)
                          else some (none, a.withIndex s.index)
                      else some (none, s5.withIndex s.index)) = some r) →
                    r.1 = none ∧ r.2.text = s.text ∧ s.index ≤ r.2.index := by
                  intro s5 hs5t hs5i h
                  split at h
                  · rcases hsk3 : skip_to_valid fuel (s5.advance 1) with _ | s7
                    · rw [hsk3] at h; cases h
                    · rw [hsk3] at h
                      obtain ⟨w1, w2, _, _⟩ := skip_to_valid_mono _ _ _ hsk3
                      have hs7t : s7.text = s.text := by
                        rw [w1, advance_text, hs5t]
                      have hs7i : s.index ≤ s7.index := by
                        simp only [advance_index] at w2
                        omega
                      try simp only [Option.some_bind] at h
                      split at h
                      · rcases hps : parse_structure fuel s7 with _ | pr
                        · rw [hps] at h; cases h
                        · rw [hps] at h
                          try simp only [Option.some_bind] at h
                          have hnone : pr.1 = none :=
                            (cluster_closerFree fuel).1 s7 (pr.1, pr.2)
                              (closerFree_mono hs7t hs7i hcf)
                              (show parse_structure fuel s7 = some (pr.1, pr.2) from hps)
                          obtain ⟨p1, _⟩ := (cluster_mono fuel).2.1 _ _
                            (show parse_structure fuel s7 = some (pr.1, pr.2) from hps)
                          split at h
                          · cases h
                            exact ⟨rfl, p1.trans hs7t, le_refl _⟩
                          · rename_i v heq
                            rw [hnone] at heq
                            cases heq
                      · cases h
                        exact ⟨rfl, hs7t, le_refl _⟩
                  · cases h
                    exact ⟨rfl, hs5t, le_refl _⟩
                split at h
                · refine htail _ (by rw [withIndex_text, skip_invalid_text]; exact hs4t)
                    ?_ h
                  have hsi := skip_invalid_index s4 ['='] none
                  simp only [withIndex_index]
                  omega
                · exact htail _ hs4t (by omega) h

/-- The driver loop over a closer-free tail of the input: with no closing brace
or bracket remaining, no assignment can complete with a structure, so the scan
reaches end of input leaving the accumulated result set exactly as it was. -/
theorem parse_file_loop_closerFree : ∀ (fuel : Nat) (s : St)
    (rs rs' : List (List Char × Value)), closerFree s.remaining = true →
    parse_file_loop fuel s rs = some rs' → rs' = rs := by
  intro fuel
  induction fuel with
  | zero =>
    intro s rs rs' hcf h
    simp [parse_file_loop] at h
  | succ n ih =>
    intro s rs rs' hcf h
    rw [parse_file_loop] at h
    split at h
    · rcases hsk : skip_to_valid (n + 1) s with _ | s1
      · rw [hsk] at h; cases h
      · rw [hsk] at h
        obtain ⟨m1, m2, _, _⟩ := skip_to_valid_mono _ _ _ hsk
        have hcf1 : closerFree s1.remaining = true := closerFree_mono m1 m2 hcf
        try simp only [Option.some_bind] at h
        rcases hta : try_parse_assignment (n + 1) s1 with _ | ar
        · rw [hta] at h; cases h
        · rw [hta] at h
          try simp only [Option.some_bind] at h
          obtain ⟨a0, a1, a2⟩ :=
            try_parse_assignment_closerFree (n + 1) s1 (ar.1, ar.2) hcf1
              (show try_parse_assignment (n + 1) s1 = some (ar.1, ar.2) from hta)
          have a1' : ar.2.text = s1.text := a1
          have a2' : s1.index ≤ ar.2.index := a2
          rw [a0] at h
          refine ih (ar.2.advance 1) rs rs' ?_ h
          refine closerFree_mono ?_ ?_ hcf1
          · rw [advance_text]; exact a1'
          · simp only [advance_index]; omega
    · cases h; rfl

/-- C4: truncation yields nothing.  Generally: whenever the remaining input
contains no closing brace and no closing bracket — so end of input is reached
before the closer of the structure being parsed, whatever recovery does — a
completed `parse_structure` call returns no value at all, never a partial object
or array; moreover the driver loop over such a tail adds nothing to its result
set, so a truncated structure contributes nothing to the overall results.
Concretely, the unterminated `\x7b a: 1, b: ` produces no value. -/
theorem truncation_yields_nothing (fuel : Nat) (s : St) (r : Option Value × St)
    (hcf : closerFree s.remaining = true) (h : parse_structure fuel s = some r) :
    r.1 = none ∧
    (∀ (fuel2 : Nat) (t : St) (rs rs' : List (List Char × Value)),
      closerFree t.remaining = true → parse_file_loop fuel2 t rs = some rs' →
      rs' = rs) ∧
    (parse_structure 100 (initSt ("\x7b a: 1, b: ".toList))).map (fun p => p.1) =
      some none :=
  ⟨(cluster_closerFree fuel).1 s r hcf h,
    fun fuel2 t rs rs' hc hp => parse_file_loop_closerFree fuel2 t rs rs' hc hp,
    rfl⟩

/-- Witness for C4 at the unterminated object `\x7b a: 1, b: `. -/
theorem truncation_yields_nothing_witness :
    closerFree (initSt ("\x7b a: 1, b: ".toList)).remaining = true ∧
    ((parse_structure 100 (initSt ("\x7b a: 1, b: ".toList))).getD
      (none, initSt [])).1 = none :=
  ⟨by decide,
    (truncation_yields_nothing 100 (initSt ("\x7b a: 1, b: ".toList))
      ((parse_structure 100 (initSt ("\x7b a: 1, b: ".toList))).getD (none, initSt []))
      (by decide) rfl).1⟩

end DictifyJs

namespace DictifyJs

/-! ## C2: step lemmas for symbolic execution of one object parse -/

/-- `skip_to_valid` does nothing when the cursor sits on a character that is
neither whitespace nor a possible comment opener. -/
theorem skip_to_valid_noop (fuel : Nat) {s : St} {c : Char} {t : List Char}
    (hrem : s.remaining = c :: t)
    (hws : wsChars.contains c = false) (hsl : ('/' == c) = false) :
    skip_to_valid (fuel + 1) s = some s := by
  rw [skip_to_valid, endOfFile_false_of_remaining hrem, current_of_remaining hrem,
    startswith_eq, startswith_eq, hrem]
  simp only [Bool.false_eq_true, if_false, pyMem, List.isPrefixOf, hws, hsl,
    Bool.false_and, ite_false]

end DictifyJs

namespace DictifyJs

theorem beq_flip {a b : Char} (h : (a == b) = false) : (b == a) = false := by
  rcases hab : b == a
  · rfl
  · have hba := eq_of_beq hab
    subst hba
    simp at h

/-- One-identifier run stopped by the next character. -/
theorem identRun_one (c d : Char) (t : List Char)
    (h1 : (c.isAlphanum || c == '_' || c == '$') = true)
    (h2 : (d.isAlphanum || d == '_' || d == '$') = false) :
    identRun (c :: d :: t) = 1 := by
  simp [identRun, List.takeWhile_cons, h1, h2]

/-- `read_key` on a single-letter identifier key. -/
theorem read_key_ident (fuel : Nat) {s : St} {c d : Char} {t : List Char}
    (hrem : s.remaining = c :: d :: t)
    (hws : wsChars.contains c = false) (hsl : ('/' == c) = false)
    (hq : pyMem (some c) ['"', squote] = false)
    (hnb : pyEq (some c) '[' = false)
    (hnd : pyIsDigit (some c) = false)
    (ha : (pyIsAlpha (some c) || pyMem (some c) ['_', '$']) = true)
    (hid : identRun (c :: d :: t) = 1) :
    read_key (fuel + 1) s = some (some (Key.str [c]), s.advance 1) := by
  rw [read_key, skip_to_valid_noop fuel hrem hws hsl]
  simp only [Option.some_bind]
  rw [current_of_remaining hrem, hq, hnb, hnd, ha, hrem, hid]
  simp

/-- `read_value` on the literal `null`: the sentinel is produced and exactly the
four letters are consumed. -/
theorem read_value_null (fuel : Nat) {s : St} {t : List Char}
    (hrem : s.remaining = 'n' :: 'u' :: 'l' :: 'l' :: t) :
    read_value (fuel + 1) s = some (some Value.sentinel, s.advance 4) := by
  rw [read_value, skip_to_valid_noop fuel hrem (by decide) (by decide)]
  simp only [Option.some_bind]
  rw [current_of_remaining hrem]
  rw [startswith_eq, startswith_eq, startswith_eq, hrem]
  simp +decide only [pyMem, pyEq, pyIsDigit, List.isPrefixOf, Bool.false_and,
    Bool.or_self, if_true, if_false, Bool.false_eq_true, ite_false, ite_true,
    (by decide : (('f' : Char) == 'n') = false), Bool.and_eq_true]

end DictifyJs

namespace DictifyJs

/-- A fragment whose first character makes the value reader give up immediately:
not whitespace or a comment opener (so `skip_to_valid` is a no-op), not a quote,
backtick, digit, minus sign or opening bracket, and not the first letter of
`true`, `false` or `null`. -/
def unsupportedHead : List Char → Bool
  | [] => false
  | c :: _ =>
    !(wsChars.contains c) && !('/' == c) && !(c == '"') && !(c == squote) &&
    !(c == btick) && !(c.isDigit) && !(c == '-') && !(c == 't') && !(c == 'f') &&
    !(c == 'n') && !(c == lbrace) && !(c == '[')

/-- `read_value` on an unsupported construct returns no value and does not move
the cursor. -/
theorem read_value_unsupported (fuel : Nat) {s : St} {c : Char} {t : List Char}
    (hrem : s.remaining = c :: t) (hun : unsupportedHead (c :: t) = true) :
    read_value (fuel + 1) s = some (none, s) := by
  rw [unsupportedHead] at hun
  simp only [Bool.and_eq_true, Bool.not_eq_true'] at hun
  obtain ⟨⟨⟨⟨⟨⟨⟨⟨⟨⟨⟨hws, hsl⟩, hq1⟩, hq2⟩, hbt⟩, hdg⟩, hmi⟩, ht⟩, hf⟩, hn⟩, hlb⟩, hbk⟩ := hun
  rw [read_value, skip_to_valid_noop fuel hrem hws hsl]
  simp only [Option.some_bind]
  rw [current_of_remaining hrem]
  rw [startswith_eq, startswith_eq, startswith_eq, hrem]
  have hne : ∀ d : Char, (c == d) = false → ¬ (c = d) := by
    intro d hcd he
    subst he
    simp at hcd
  simp only [pyMem, pyEq, pyIsDigit, List.contains_cons, List.isPrefixOf,
    hq1, hq2, hbt, hdg, hmi, hlb, hbk, beq_flip ht, beq_flip hf, beq_flip hn,
    Bool.false_and, Bool.or_false, Bool.false_or, Bool.or_self,
    Option.some.injEq, decide_eq_true_eq]
  simp [hne btick hbt, hne '-' hmi, hne lbrace hlb, hne '[' hbk,
    hne '"' hq1, hne squote hq2, hdg]

end DictifyJs

namespace DictifyJs

/-- One complete well-formed member `k:null` of an object: the key is read, the
colon consumed, the `null` literal read as the sentinel, and the member is stored
as an explicit `Value.null`. -/
theorem parse_loop_null_member (fuel : Nat) {s : St} {c : Char} {t : List Char}
    (entries : List (Key × Value))
    (hrem : s.remaining = c :: ':' :: 'n' :: 'u' :: 'l' :: 'l' :: t)
    (hws : wsChars.contains c = false) (hsl : ('/' == c) = false)
    (hq : pyMem (some c) ['"', squote] = false)
    (hnb : pyEq (some c) '[' = false)
    (hnd : pyIsDigit (some c) = false)
    (ha : (pyIsAlpha (some c) || pyMem (some c) ['_', '$']) = true)
    (hce : pyEq (some c) rbrace = false)
    (hidr : (c.isAlphanum || c == '_' || c == '$') = true) :
    parse_loop (fuel + 2) (.inl entries) s =
      parse_after (fuel + 1) (.inl (store entries (Key.str [c]) Value.null))
        (s.advance 6) := by
  have hrem1 : (s.advance 1).remaining = ':' :: 'n' :: 'u' :: 'l' :: 'l' :: t :=
    remaining_advance_one hrem
  have hrem2 : ((s.advance 1).advance 1).remaining = 'n' :: 'u' :: 'l' :: 'l' :: t :=
    remaining_advance_one hrem1
  rw [show fuel + 2 = (fuel + 1) + 1 from rfl, parse_loop,
    skip_to_valid_noop (fuel + 1) hrem hws hsl]
  simp only [Option.some_bind, accEnd]
  rw [current_of_remaining hrem, hce, endOfFile_false_of_remaining hrem]
  simp only [Bool.false_eq_true, if_false]
  rw [read_key_ident (fuel + 1) hrem hws hsl hq hnb hnd ha
    (identRun_one c ':' _ hidr (by decide))]
  simp only [Option.some_bind]
  rw [skip_to_valid_noop (fuel + 1) hrem1 (by decide) (by decide)]
  simp only [Option.some_bind]
  rw [current_of_remaining hrem1]
  simp +decide only [pyEq, if_true, ite_true]
  rw [read_value_null fuel hrem2]
  simp only [Option.some_bind]
  rfl

/-- The loop tail on a comma: consume it and continue with the next member. -/
theorem parse_after_comma (fuel : Nat) {s : St} {t : List Char} (acc : Acc)
    (hrem : s.remaining = ',' :: t) :
    parse_after (fuel + 1) acc s = parse_loop fuel acc (s.advance 1) := by
  rw [parse_after, skip_to_valid_noop fuel hrem (by decide) (by decide)]
  simp only [Option.some_bind]
  rw [current_of_remaining hrem]
  simp +decide only [pyEq, if_true, ite_true]

/-- The loop tail on the closing brace: the accumulated object is returned. -/
theorem parse_after_close (fuel : Nat) {s : St} {t : List Char}
    (entries : List (Key × Value)) (hrem : s.remaining = rbrace :: t) :
    parse_after (fuel + 1) (.inl entries) s =
      some (some (.inl entries), s.advance 1) := by
  rw [parse_after, skip_to_valid_noop fuel hrem (by decide) (by decide)]
  simp only [Option.some_bind, accEnd]
  rw [current_of_remaining hrem]
  simp +decide only [pyEq, if_true, if_false, ite_true, ite_false, Bool.false_eq_true]

end DictifyJs

namespace DictifyJs

theorem remaining_withIndex_garb {s : St} {g rest : List Char}
    (hrem : s.remaining = g ++ ',' :: rest) :
    (s.withIndex (s.index + (g.length + 1))).remaining = rest := by
  rw [St.remaining, withIndex_text, withIndex_index]
  have hd : s.text.drop (s.index + (g.length + 1)) =
      (s.text.drop s.index).drop (g.length + 1) := by
    rw [List.drop_drop]
  rw [hd, show s.text.drop s.index = s.remaining from rfl, hrem,
    show g ++ ',' :: rest = (g ++ [',']) ++ rest from by simp,
    show g.length + 1 = (g ++ [',']).length from by simp]
  exact List.drop_left _ _

/-- One dropped member `k:<unsupported construct>` of an object: the key and the
colon are consumed, the value reader gives up, recovery skips the whole balanced
construct up to the member-separating comma, and the loop continues with the
entries unchanged — the key is not stored. -/
theorem parse_loop_dropped_member (fuel : Nat) {s : St} {c : Char}
    {g rest : List Char} (entries : List (Key × Value))
    (hrem : s.remaining = c :: ':' :: (g ++ ',' :: rest))
    (hws : wsChars.contains c = false) (hsl : ('/' == c) = false)
    (hq : pyMem (some c) ['"', squote] = false)
    (hnb : pyEq (some c) '[' = false)
    (hnd : pyIsDigit (some c) = false)
    (ha : (pyIsAlpha (some c) || pyMem (some c) ['_', '$']) = true)
    (hce : pyEq (some c) rbrace = false)
    (hidr : (c.isAlphanum || c == '_' || c == '$') = true)
    (hok : okGarb g [] = true) (hun : unsupportedHead g = true)
    (hb : 0 ≤ s.braceDepth) (hk : 0 ≤ s.bracketDepth) :
    parse_loop (fuel + 2) (.inl entries) s =
      parse_loop (fuel + 1) (.inl entries)
        { (s.advance 1).advance 1 with
          index := ((s.advance 1).advance 1).index + (g.length + 1) } := by
  have hrem1 : (s.advance 1).remaining = ':' :: (g ++ ',' :: rest) :=
    remaining_advance_one hrem
  have hrem2 : ((s.advance 1).advance 1).remaining = g ++ ',' :: rest :=
    remaining_advance_one hrem1
  cases g with
  | nil => exact absurd hun (by decide)
  | cons c2 g' =>
    have hrem2' : ((s.advance 1).advance 1).remaining = c2 :: (g' ++ ',' :: rest) := by
      rw [hrem2, List.cons_append]
    have hun' : unsupportedHead (c2 :: (g' ++ ',' :: rest)) = true := hun
    rw [show fuel + 2 = (fuel + 1) + 1 from rfl, parse_loop,
      skip_to_valid_noop (fuel + 1) hrem hws hsl]
    simp only [Option.some_bind, accEnd]
    rw [current_of_remaining hrem, hce, endOfFile_false_of_remaining hrem]
    simp only [Bool.false_eq_true, if_false]
    rw [read_key_ident (fuel + 1) hrem hws hsl hq hnb hnd ha
      (identRun_one c ':' _ hidr (by decide))]
    simp only [Option.some_bind]
    rw [skip_to_valid_noop (fuel + 1) hrem1 (by decide) (by decide)]
    simp only [Option.some_bind]
    rw [current_of_remaining hrem1]
    simp +decide only [pyEq, if_true, ite_true]
    rw [read_value_unsupported fuel hrem2' hun']
    simp only [Option.some_bind]
    rw [skip_invalid_resync _ (c2 :: g') rest hrem2 hok hb hk]
    simp +decide only [if_true, if_false, ite_true, ite_false, Bool.false_eq_true]

end DictifyJs

namespace DictifyJs

set_option maxHeartbeats 1600000 in
/-- C2: drop-not-null distinction.  For every balanced unsupported construct
`g` (well-bracketed, quote-free, no top-level comma or closer, and with a head
on which the value reader gives up), parsing the object
`\x7ba:null,b:<g>,c:null\x7d` yields exactly the mapping a ↦ Null, c ↦ Null:
the members whose value is the explicit literal `null` are present with an
explicit Null value, while the member `b`, whose value is the unsupported
construct, is entirely absent from the mapping — absence, not a null
placeholder. -/
theorem drop_not_null (fuel : Nat) (g : List Char)
    (hok : okGarb g [] = true) (hun : unsupportedHead g = true) :
    (parse_structure (fuel + 8) (initSt ("\x7ba:null,b:".toList ++ g ++ ",c:null\x7d".toList))).map (fun r => r.1) =
    some (some (Value.obj [(Key.str ['a'], Value.null), (Key.str ['c'], Value.null)])) := by
  have hT0 : (initSt ("\x7ba:null,b:".toList ++ g ++ ",c:null\x7d".toList)).remaining =
      lbrace :: 'a' :: ':' :: 'n' :: 'u' :: 'l' :: 'l' :: ',' :: 'b' :: ':' :: (g ++ ',' :: ('c' :: ':' :: 'n' :: 'u' :: 'l' :: 'l' :: rbrace :: [])) := by
    show ("\x7ba:null,b:".toList ++ g ++ ",c:null\x7d".toList) = _
    rw [List.append_assoc]
    rfl
  have hA1 : (St.mk ("\x7ba:null,b:".toList ++ g ++ ",c:null\x7d".toList) 1 1 0).remaining =
      'a' :: ':' :: 'n' :: 'u' :: 'l' :: 'l' :: (',' :: 'b' :: ':' :: (g ++ ',' :: ('c' :: ':' :: 'n' :: 'u' :: 'l' :: 'l' :: rbrace :: []))) := by
    show (("\x7ba:null,b:".toList ++ g ++ ",c:null\x7d".toList).drop 1) = _
    rw [List.append_assoc]
    rfl
  have s1 := parse_loop_null_member (fuel + 5) [] hA1 (by decide) (by decide) (by decide) (by decide) (by decide) (by decide) (by decide) (by decide)
  have hA2 : ((St.mk ("\x7ba:null,b:".toList ++ g ++ ",c:null\x7d".toList) 1 1 0).advance 6).remaining = ',' :: ('b' :: ':' :: (g ++ ',' :: ('c' :: ':' :: 'n' :: 'u' :: 'l' :: 'l' :: rbrace :: []))) := by
    rw [remaining_advance, hA1]
    rfl
  have s2 := parse_after_comma (fuel + 5) (Sum.inl (store [] (Key.str ['a']) Value.null)) hA2
  have hA3 : (((St.mk ("\x7ba:null,b:".toList ++ g ++ ",c:null\x7d".toList) 1 1 0).advance 6).advance 1).remaining = 'b' :: ':' :: (g ++ ',' :: ('c' :: ':' :: 'n' :: 'u' :: 'l' :: 'l' :: rbrace :: [])) := by
    rw [remaining_advance, hA2]
    rfl
  have s3 := parse_loop_dropped_member (fuel + 3) (store [] (Key.str ['a']) Value.null) hA3 (by decide) (by decide) (by decide) (by decide) (by decide) (by decide) (by decide) (by decide) hok hun
    (by norm_num : (0 : Int) ≤ 1) (le_refl (0 : Int))
  have hg4 : (((((St.mk ("\x7ba:null,b:".toList ++ g ++ ",c:null\x7d".toList) 1 1 0).advance 6).advance 1).advance 1).advance 1).remaining = g ++ ',' :: ('c' :: ':' :: 'n' :: 'u' :: 'l' :: 'l' :: rbrace :: []) := by
    rw [remaining_advance, remaining_advance, hA3]
    rfl
  have hA4 := remaining_withIndex_garb hg4
  have s4 := parse_loop_null_member (fuel + 2) (store [] (Key.str ['a']) Value.null) hA4 (by decide) (by decide) (by decide) (by decide) (by decide) (by decide) (by decide) (by decide)
  have hA5 : (((((((St.mk ("\x7ba:null,b:".toList ++ g ++ ",c:null\x7d".toList) 1 1 0).advance 6).advance 1).advance 1).advance 1).withIndex ((((((St.mk ("\x7ba:null,b:".toList ++ g ++ ",c:null\x7d".toList) 1 1 0).advance 6).advance 1).advance 1).advance 1).index + (g.length + 1))).advance 6).remaining = rbrace :: [] := by
    rw [remaining_advance, hA4]
    rfl
  have s5 := parse_after_close (fuel + 2) (store (store [] (Key.str ['a']) Value.null) (Key.str ['c']) Value.null) hA5
  have hres : parse_loop (fuel + 7) (Sum.inl ([] : List (Key × Value))) (St.mk ("\x7ba:null,b:".toList ++ g ++ ",c:null\x7d".toList) 1 1 0) =
      some (some (Sum.inl (store (store [] (Key.str ['a']) Value.null) (Key.str ['c']) Value.null)), ((((((((St.mk ("\x7ba:null,b:".toList ++ g ++ ",c:null\x7d".toList) 1 1 0).advance 6).advance 1).advance 1).advance 1).withIndex ((((((St.mk ("\x7ba:null,b:".toList ++ g ++ ",c:null\x7d".toList) 1 1 0).advance 6).advance 1).advance 1).advance 1).index + (g.length + 1))).advance 6).advance 1)) :=
    s1.trans (s2.trans (s3.trans (s4.trans s5)))
  rw [show fuel + 8 = (fuel + 7) + 1 from rfl, parse_structure,
    skip_to_valid_noop (fuel + 7) hT0 (by decide) (by decide)]
  simp only [Option.some_bind]
  rw [current_of_remaining hT0]
  simp +decide only [pyMem, pyEq, List.contains_cons, if_true, if_false, ite_true,
    ite_false]
  rw [show ({ text := ((initSt ("\x7ba:null,b:".toList ++ g ++ ",c:null\x7d".toList)).advance 1).text, index := ((initSt ("\x7ba:null,b:".toList ++ g ++ ",c:null\x7d".toList)).advance 1).index, braceDepth := ((initSt ("\x7ba:null,b:".toList ++ g ++ ",c:null\x7d".toList)).advance 1).braceDepth + 1, bracketDepth := ((initSt ("\x7ba:null,b:".toList ++ g ++ ",c:null\x7d".toList)).advance 1).bracketDepth } : St) = St.mk ("\x7ba:null,b:".toList ++ g ++ ",c:null\x7d".toList) 1 1 0 from rfl]
  rw [hres]
  rfl

/-- Witness for C2 at the concrete unsupported construct `call(\x7bx:1\x7d)`. -/
theorem drop_not_null_witness :
    okGarb ("call(\x7bx:1\x7d)".toList) [] = true ∧
    unsupportedHead ("call(\x7bx:1\x7d)".toList) = true ∧
    (parse_structure (0 + 8)
        (initSt ("\x7ba:null,b:".toList ++ "call(\x7bx:1\x7d)".toList ++
          ",c:null\x7d".toList))).map (fun r => r.1) =
      some (some (Value.obj [(Key.str ['a'], Value.null),
        (Key.str ['c'], Value.null)])) :=
  ⟨by decide, by decide,
    drop_not_null 0 ("call(\x7bx:1\x7d)".toList) (by decide) (by decide)⟩

end DictifyJs

namespace DictifyJs

/-! ## C9: linear fuel suffices for every pass -/

/-- `skip_to_valid` succeeds whenever the fuel exceeds the remaining input
length: every iteration consumes at least one character. -/
theorem skip_to_valid_sufficient : ∀ (f : Nat) (s : St),
    s.length - s.index + 1 ≤ f → (skip_to_valid f s).isSome = true := by
  intro f
  induction f with
  | zero =>
    intro s h
    omega
  | succ n ih =>
    intro s h
    rw [skip_to_valid]
    split
    · rfl
    · rename_i heof
      have hlt : s.index < s.length := by
        rw [St.endOfFile] at heof
        simp at heof
        omega
      split
      · exact ih (s.advance 1) (by simp only [length_advance, advance_index]; omega)
      · split
        · exact ih _ (by simp only [length_advance, advance_index]; omega)
        · split
          · exact ih _ (by simp only [length_advance, advance_index]; omega)
          · rfl

/-- `read_identifier` succeeds under the same linear fuel bound. -/
theorem read_identifier_sufficient (f : Nat) (s : St)
    (h : s.length - s.index + 1 ≤ f) : (read_identifier f s).isSome = true := by
  rw [read_identifier]
  obtain ⟨s1, hsk⟩ := Option.isSome_iff_exists.mp (skip_to_valid_sufficient f s h)
  rw [hsk]
  simp only [Option.some_bind]
  split <;> rfl

/-- `read_key` succeeds under the same linear fuel bound. -/
theorem read_key_sufficient (f : Nat) (s : St)
    (h : s.length - s.index + 1 ≤ f) : (read_key f s).isSome = true := by
  rw [read_key]
  obtain ⟨s1, hsk⟩ := Option.isSome_iff_exists.mp (skip_to_valid_sufficient f s h)
  rw [hsk]
  simp only [Option.some_bind]
  split
  · rfl
  · split
    · rfl
    · split
      · rfl
      · split <;> rfl

end DictifyJs

namespace DictifyJs

/-- A positive character test on `self.current` implies the cursor is in range. -/
theorem lt_length_of_pyEq {s : St} {ch : Char} (h : pyEq s.current ch = true) :
    s.index < s.length := by
  rw [pyEq] at h
  have hc : s.current = some ch := of_decide_eq_true h
  rw [current_eq_head?] at hc
  rcases hrem : s.remaining with _ | ⟨c, t⟩
  · rw [hrem] at hc
    cases hc
  · have := endOfFile_false_of_remaining hrem
    rw [St.endOfFile] at this
    simp at this
    omega

/-- At end of input a member-loop step stops immediately. -/
theorem parse_loop_eof (f : Nat) (acc : Acc) (s : St)
    (h : s.length ≤ s.index) : (parse_loop (f + 1) acc s).isSome = true := by
  have heof : s.endOfFile = true := by
    rw [St.endOfFile]
    simpa using h
  have hsk : skip_to_valid (f + 1) s = some s := by
    rw [skip_to_valid, if_pos heof]
  have hcur : s.current = none := by
    rw [St.current]
    exact List.get?_eq_none.mpr h
  rw [parse_loop, hsk]
  simp only [Option.some_bind]
  rw [hcur]
  simp +decide only [pyEq, heof, if_true, if_false, ite_true, ite_false,
    Bool.false_eq_true]
  cases acc <;> rfl

end DictifyJs

namespace DictifyJs

/-- Linear fuel suffices for the whole mutual parser cluster: every recursion
step either consumes input or moves from value reader to structure opener to
member loop, so `3 * remaining + 4` steps always complete the parse.  This is
the termination witness for the structure passes. -/
theorem cluster_sufficient : ∀ fuel : Nat,
    (∀ s, 3 * (s.length - s.index) + 3 ≤ fuel → (read_value fuel s).isSome = true) ∧
    (∀ s, 3 * (s.length - s.index) + 2 ≤ fuel → (parse_structure fuel s).isSome = true) ∧
    (∀ acc s, 3 * (s.length - s.index) + 4 ≤ fuel →
      (parse_loop fuel acc s).isSome = true) ∧
    (∀ acc s, 3 * (s.length - s.index) + 3 ≤ fuel →
      (parse_after fuel acc s).isSome = true) := by
  intro fuel
  induction fuel with
  | zero =>
    refine ⟨?_, ?_, ?_, ?_⟩ <;> (intro _; intros; omega)
  | succ n ih =>
    obtain ⟨ihv, ihs, ihl, iha⟩ := ih
    have hrec : ∀ (s2 : St) (stopSet : List Char) (cend : Option Char) (acc : Acc)
        (bad : Option Char × St → Option Acc × St) (L : Nat),
        s2.length = L → 3 * (L - s2.index) + 1 ≤ n →
        (if (skip_invalid s2 stopSet cend).1 = some (accEnd acc) then
            some (bad (skip_invalid s2 stopSet cend)) else
          if (skip_invalid s2 stopSet cend).1 = none then
            some (none, (skip_invalid s2 stopSet cend).2) else
          parse_loop n acc (skip_invalid s2 stopSet cend).2).isSome = true := by
      intro s2 stopSet cend acc bad L hL hb
      split
      · rfl
      · split
        · rfl
        · rename_i h1 h2
          rcases hr1 : (skip_invalid s2 stopSet cend).1 with _ | c
          · exact absurd hr1 h2
          · have hstrict := skip_invalid_strict hr1
            have htext := skip_invalid_text s2 stopSet cend
            have hlen : (skip_invalid s2 stopSet cend).2.length = L := by
              rw [St.length, htext]
              exact hL
            by_cases hm2 : s2.index < s2.length
            · have hl2 : s2.length = L := hL
              exact ihl acc _ (by omega)
            · exfalso
              have hle : s2.text.length ≤ s2.index := by
                rw [St.length] at hm2
                omega
              have hnil : s2.remaining = [] := by
                rw [St.remaining]
                exact List.drop_eq_nil_iff_le.mpr hle
              have hnone : (skip_invalid s2 stopSet cend).1 = none := by
                simp [skip_invalid, hnil, skip_invalid_loop]
              rw [hnone] at hr1
              cases hr1
    refine ⟨?_, ?_, ?_, ?_⟩
    · -- read_value
      intro s h
      rw [read_value]
      obtain ⟨s1, hsk⟩ := Option.isSome_iff_exists.mp
        (skip_to_valid_sufficient (n + 1) s (by omega))
      rw [hsk]
      simp only [Option.some_bind]
      obtain ⟨m1, m2, _, _⟩ := skip_to_valid_mono _ _ _ hsk
      have hl1 : s1.length = s.length := by rw [St.length, St.length, m1]
      split
      · rfl
      · split
        · rfl
        · split
          · rfl
          · split
            · rfl
            · split
              · rfl
              · split
                · rfl
                · split
                  · exact ihs _ (by omega)
                  · split
                    · exact ihs _ (by omega)
                    · rfl
    · -- parse_structure
      intro s h
      rw [parse_structure]
      obtain ⟨s0, hsk⟩ := Option.isSome_iff_exists.mp
        (skip_to_valid_sufficient (n + 1) s (by omega))
      rw [hsk]
      simp only [Option.some_bind]
      obtain ⟨m1, m2, _, _⟩ := skip_to_valid_mono _ _ _ hsk
      have hl0 : s0.length = s.length := by rw [St.length, St.length, m1]
      split
      · by_cases heof : s0.length ≤ s0.index
        · have hn1 : 1 ≤ n := by omega
          have hcall := parse_loop_eof (n - 1)
            (if pyEq s0.current lbrace = true then Sum.inl [] else Sum.inr [])
            (if pyEq s0.current lbrace = true then
              { s0.advance 1 with braceDepth := (s0.advance 1).braceDepth + 1 }
            else
              { s0.advance 1 with bracketDepth := (s0.advance 1).bracketDepth + 1 })
            (by split <;> (show s0.length ≤ s0.index + 1; omega))
          rw [Nat.sub_add_cancel hn1] at hcall
          obtain ⟨r, hr⟩ := Option.isSome_iff_exists.mp hcall
          rw [hr]
          rfl
        · have hcall := ihl
            (if pyEq s0.current lbrace = true then Sum.inl [] else Sum.inr [])
            (if pyEq s0.current lbrace = true then
              { s0.advance 1 with braceDepth := (s0.advance 1).braceDepth + 1 }
            else
              { s0.advance 1 with bracketDepth := (s0.advance 1).bracketDepth + 1 })
            (by split <;> (show 3 * (s0.length - (s0.index + 1)) + 4 ≤ n; omega))
          obtain ⟨r, hr⟩ := Option.isSome_iff_exists.mp hcall
          rw [hr]
          rfl
      · rfl
    · -- parse_loop
      intro acc s h
      rw [parse_loop]
      obtain ⟨s1, hsk⟩ := Option.isSome_iff_exists.mp
        (skip_to_valid_sufficient (n + 1) s (by omega))
      rw [hsk]
      simp only [Option.some_bind]
      obtain ⟨m1, m2, _, _⟩ := skip_to_valid_mono _ _ _ hsk
      have hl1 : s1.length = s.length := by rw [St.length, St.length, m1]
      split
      · rfl
      · split
        · rfl
        · rename_i hend heof
          have hm1 : s1.index < s1.length := by
            rw [St.endOfFile] at heof
            simp at heof
            omega
          split
          · rename List (Key × Value) => entries
            obtain ⟨kr, hrk⟩ := Option.isSome_iff_exists.mp
              (read_key_sufficient (n + 1) s1 (by omega))
            rw [hrk]
            simp only [Option.some_bind]
            obtain ⟨k1, k2, _, _⟩ := read_key_mono
              (show read_key (n + 1) s1 = some (kr.1, kr.2) from hrk)
            have hlk : kr.2.length = s.length := by
              rw [St.length, k1]
              exact hl1
            split
            · exact hrec kr.2 [',', rbrace] (some (accEnd (Sum.inl entries)))
                (Sum.inl entries) (fun p => (some (Sum.inl entries), p.2)) s.length
                hlk (by omega)
            · obtain ⟨s3, hsk2⟩ := Option.isSome_iff_exists.mp
                (skip_to_valid_sufficient (n + 1) kr.2 (by omega))
              rw [hsk2]
              simp only [Option.some_bind]
              obtain ⟨q1, q2, _, _⟩ := skip_to_valid_mono _ _ _ hsk2
              have hl3 : s3.length = s.length := by
                rw [St.length, q1]
                exact hlk
              split
              · rename_i hcolon
                have hm3 : s3.index < s3.length := lt_length_of_pyEq hcolon
                obtain ⟨vr, hrv⟩ := Option.isSome_iff_exists.mp
                  (ihv (s3.advance 1)
                    (by simp only [length_advance, advance_index]; omega))
                rw [hrv]
                simp only [Option.some_bind]
                obtain ⟨v1, v2⟩ := (cluster_mono n).1 _ _ hrv
                have hlv : vr.2.length = s.length := by
                  rw [St.length, v1]
                  exact hl3
                have hv2 : s3.index + 1 ≤ vr.2.index := by simpa using v2
                split
                · exact iha _ _ (by omega)
                · exact iha _ _ (by omega)
                · exact hrec vr.2 [',', rbrace] (some (accEnd (Sum.inl entries)))
                    (Sum.inl entries) (fun p => (some (Sum.inl entries), p.2)) s.length
                    hlv (by omega)
              · exact hrec s3 [',', rbrace] (some (accEnd (Sum.inl entries)))
                  (Sum.inl entries) (fun p => (some (Sum.inl entries), p.2)) s.length
                  hl3 (by omega)
          · rename List Value => elems
            obtain ⟨vr, hrv⟩ := Option.isSome_iff_exists.mp (ihv s1 (by omega))
            rw [hrv]
            simp only [Option.some_bind]
            obtain ⟨v1, v2⟩ := (cluster_mono n).1 _ _ hrv
            have hlv : vr.2.length = s.length := by
              rw [St.length, v1]
              exact hl1
            split
            · exact iha _ _ (by omega)
            · exact iha _ _ (by omega)
            · exact hrec vr.2 [',', ']'] (some (accEnd (Sum.inr elems)))
                (Sum.inr elems) (fun p => (some (Sum.inr elems), p.2)) s.length
                hlv (by omega)
    · -- parse_after
      intro acc s h
      rw [parse_after]
      obtain ⟨s6, hsk⟩ := Option.isSome_iff_exists.mp
        (skip_to_valid_sufficient (n + 1) s (by omega))
      rw [hsk]
      simp only [Option.some_bind]
      obtain ⟨m1, m2, _, _⟩ := skip_to_valid_mono _ _ _ hsk
      have hl6 : s6.length = s.length := by rw [St.length, St.length, m1]
      split
      · rename_i hcomma
        have hm6 : s6.index < s6.length := lt_length_of_pyEq hcomma
        exact ihl _ _ (by simp only [length_advance, advance_index]; omega)
      · split
        · rfl
        · exact hrec s6 (if accIsDict acc then [',', rbrace] else [',', ']'])
            (some (accEnd acc)) acc (fun p => (some acc, p.2)) s.length hl6 (by omega)

end DictifyJs

namespace DictifyJs

/-- Every assignment attempt leaves the text unchanged and never moves the
cursor backwards; a successful attempt (one that records an assignment)
strictly advances the cursor.  This is the driver-loop progress property. -/
theorem try_parse_assignment_progress (fuel : Nat) (s : St)
    (r : Option (List Char × Value) × St) (h : try_parse_assignment fuel s = some r) :
    r.2.text = s.text ∧ s.index ≤ r.2.index ∧
    (∀ nm v, r.1 = some (nm, v) → s.index + 1 ≤ r.2.index) := by
  rw [try_parse_assignment] at h
  rcases hsk : skip_to_valid fuel s with _ | s1
  · rw [hsk] at h; cases h
  · rw [hsk] at h
    obtain ⟨m1, m2, _, _⟩ := skip_to_valid_mono _ _ _ hsk
    try simp only [Option.some_bind] at h
    split at h
    · cases h
      exact ⟨m1, le_refl _, fun nm v hv => Option.noConfusion hv⟩
    · rename_i s2 hkw
      have hs2 : s2.text = s.text ∧ s1.index + 3 ≤ s2.index := by
        split at hkw
        · cases hkw
          exact ⟨by simpa using m1, by simp only [advance_index]; omega⟩
        · split at hkw
          · cases hkw
            exact ⟨by simpa using m1, by simp only [advance_index]; omega⟩
          · split at hkw
            · cases hkw
              exact ⟨by simpa using m1, by simp only [advance_index]; omega⟩
            · cases hkw
      split at h
      · cases h
        exact ⟨hs2.1, le_refl _, fun nm v hv => Option.noConfusion hv⟩
      · rcases hid : read_identifier fuel s2 with _ | ir
        · rw [hid] at h; cases h
        · rw [hid] at h
          try simp only [Option.some_bind] at h
          obtain ⟨i1, i2, _, _⟩ := read_identifier_mono
            (show read_identifier fuel s2 = some (ir.1, ir.2) from hid)
          have hirt : ir.2.text = s.text := i1.trans hs2.1
          split at h
          · cases h
            exact ⟨hirt, le_refl _, fun nm v hv => Option.noConfusion hv⟩
          · rename Option (List Char) => ro
            rename_i name hro
            split at h
            · cases h
              exact ⟨hirt, le_refl _, fun nm v hv => Option.noConfusion hv⟩
            · rcases hsk2 : skip_to_valid fuel ir.2 with _ | s4
              · rw [hsk2] at h; cases h
              · rw [hsk2] at h
                obtain ⟨q1, q2, _, _⟩ := skip_to_valid_mono _ _ _ hsk2
                have hs4t : s4.text = s.text := q1.trans hirt
                have hs4i : s.index + 3 ≤ s4.index := by omega
                try simp only [Option.some_bind] at h
                have htail : ∀ s5 : St, s5.text = s.text → s.index + 2 ≤ s5.index + 1 →
                    ((if pyEq s5.current '=' = true then
                        (skip_to_valid fuel (s5.advance 1)).bind fun a =>
                          if pyMem a.current [lbrace, '['] = true then
                            (parse_structure fuel a).bind fun pr =>
                              match pr.1 with
                              | none => some (none, pr.2.withIndex s.index)
                              | some v => some (some (name, v), pr.2)
                          else some (none, a.withIndex s.index)
                      else some (none, s5.withIndex s.index)) = some r) →
                    r.2.text = s.text ∧ s.index ≤ r.2.index ∧
                    (∀ nm v, r.1 = some (nm, v) → s.index + 1 ≤ r.2.index) := by
                  intro s5 hs5t hs5i h
                  split at h
                  · rcases hsk3 : skip_to_valid fuel (s5.advance 1) with _ | s7
                    · rw [hsk3] at h; cases h
                    · rw [hsk3] at h
                      obtain ⟨w1, w2, _, _⟩ := skip_to_valid_mono _ _ _ hsk3
                      have hs7t : s7.text = s.text := by
                        rw [w1, advance_text, hs5t]
                      have hs7i : s.index + 2 ≤ s7.index := by
                        simp only [advance_index] at w2
                        omega
                      try simp only [Option.some_bind] at h
                      split at h
                      · rcases hps : parse_structure fuel s7 with _ | pr
                        · rw [hps] at h; cases h
                        · rw [hps] at h
                          try simp only [Option.some_bind] at h
                          obtain ⟨p1, p2⟩ := (cluster_mono fuel).2.1 _ _
                            (show parse_structure fuel s7 = some (pr.1, pr.2) from hps)
                          split at h
                          · cases h
                            exact ⟨p1.trans hs7t, le_refl _,
                              fun nm v hv => Option.noConfusion hv⟩
                          · cases h
                            have p2x : s7.index ≤ pr.2.index := p2
                            refine ⟨p1.trans hs7t, ?_, fun nm v hv => ?_⟩
                            · show s.index ≤ pr.2.index
                              omega
                            · show s.index + 1 ≤ pr.2.index
                              omega
                      · cases h
                        exact ⟨hs7t, le_refl _, fun nm v hv => Option.noConfusion hv⟩
                  · cases h
                    exact ⟨hs5t, le_refl _, fun nm v hv => Option.noConfusion hv⟩
                split at h
                · refine htail _ (by rw [withIndex_text, skip_invalid_text]; exact hs4t)
                    ?_ h
                  have hsi := skip_invalid_index s4 ['='] none
                  simp only [withIndex_index]
                  omega
                · exact htail _ hs4t (by omega) h

end DictifyJs

namespace DictifyJs

/-- Linear fuel suffices for one assignment attempt. -/
theorem try_parse_assignment_sufficient (f : Nat) (s : St)
    (h : 3 * (s.length - s.index) + 2 ≤ f) :
    (try_parse_assignment f s).isSome = true := by
  rw [try_parse_assignment]
  obtain ⟨s1, hsk⟩ := Option.isSome_iff_exists.mp
    (skip_to_valid_sufficient f s (by omega))
  rw [hsk]
  simp only [Option.some_bind]
  obtain ⟨m1, m2, _, _⟩ := skip_to_valid_mono _ _ _ hsk
  have hl1 : s1.length = s.length := by rw [St.length, St.length, m1]
  split
  · rfl
  · rename_i s2 hkw
    have hs2 : s2.text = s.text ∧ s1.index ≤ s2.index := by
      split at hkw
      · cases hkw
        exact ⟨by simpa using m1, by simp only [advance_index]; omega⟩
      · split at hkw
        · cases hkw
          exact ⟨by simpa using m1, by simp only [advance_index]; omega⟩
        · split at hkw
          · cases hkw
            exact ⟨by simpa using m1, by simp only [advance_index]; omega⟩
          · cases hkw
    have hl2 : s2.length = s.length := by
      rw [St.length, hs2.1]
      rfl
    split
    · rfl
    · obtain ⟨ir, hri⟩ := Option.isSome_iff_exists.mp
        (read_identifier_sufficient f s2 (by omega))
      rw [hri]
      simp only [Option.some_bind]
      obtain ⟨i1, i2, _, _⟩ := read_identifier_mono
        (show read_identifier f s2 = some (ir.1, ir.2) from hri)
      have hl3 : ir.2.length = s.length := by
        rw [St.length, i1]
        exact hl2
      split
      · rfl
      · rename Option (List Char) => ro
        rename_i name hro
        split
        · rfl
        · obtain ⟨s4, hsk2⟩ := Option.isSome_iff_exists.mp
            (skip_to_valid_sufficient f ir.2 (by omega))
          rw [hsk2]
          simp only [Option.some_bind]
          obtain ⟨q1, q2, _, _⟩ := skip_to_valid_mono _ _ _ hsk2
          have hs4t : s4.text = s.text := q1.trans (i1.trans hs2.1)
          have hl4 : s4.length = s.length := by
            rw [St.length, hs4t]
            rfl
          have htail : ∀ s5 : St, s5.text = s.text → s4.index ≤ s5.index + 1 →
              (if pyEq s5.current '=' = true then
                  ((skip_to_valid f (s5.advance 1)).bind fun a =>
                    if pyMem a.current [lbrace, '['] = true then
                      (parse_structure f a).bind fun pr =>
                        match pr.1 with
                        | none => some (none, pr.2.withIndex s.index)
                        | some v => some (some (name, v), pr.2)
                    else some (none, a.withIndex s.index))
                else some (none, s5.withIndex s.index)).isSome = true := by
            intro s5 hs5t hs5i
            have hl5 : s5.length = s.length := by
              rw [St.length, hs5t]
              rfl
            split
            · obtain ⟨s7, hsk3⟩ := Option.isSome_iff_exists.mp
                (skip_to_valid_sufficient f (s5.advance 1)
                  (by simp only [length_advance, advance_index]; omega))
              rw [hsk3]
              simp only [Option.some_bind]
              obtain ⟨w1, w2, _, _⟩ := skip_to_valid_mono _ _ _ hsk3
              have hl7 : s7.length = s.length := by
                rw [St.length, w1, advance_text, hs5t]
                rfl
              have hw2 : s5.index + 1 ≤ s7.index := by simpa using w2
              split
              · obtain ⟨pr, hps⟩ := Option.isSome_iff_exists.mp
                  ((cluster_sufficient f).2.1 s7 (by omega))
                rw [hps]
                simp only [Option.some_bind]
                split <;> rfl
              · rfl
            · rfl
          split
          · refine htail _ (by rw [withIndex_text, skip_invalid_text]; exact hs4t) ?_
            have hsi := skip_invalid_index s4 ['='] none
            simp only [withIndex_index]
            omega
          · exact htail s4 hs4t (by omega)

/-- Linear fuel suffices for the whole driver scan: each iteration spends one
unit and advances the cursor, and the inner passes fit in the same budget. -/
theorem parse_file_loop_sufficient : ∀ (F : Nat) (s : St)
    (rs : List (List Char × Value)),
    3 * (s.length - s.index) + 3 ≤ F → (parse_file_loop F s rs).isSome = true := by
  intro F
  induction F with
  | zero =>
    intro s rs h
    omega
  | succ n ih =>
    intro s rs h
    rw [parse_file_loop]
    split
    · rename_i hlt
      obtain ⟨s1, hsk⟩ := Option.isSome_iff_exists.mp
        (skip_to_valid_sufficient (n + 1) s (by omega))
      rw [hsk]
      simp only [Option.some_bind]
      obtain ⟨m1, m2, _, _⟩ := skip_to_valid_mono _ _ _ hsk
      have hl1 : s1.length = s.length := by rw [St.length, St.length, m1]
      obtain ⟨ar, har⟩ := Option.isSome_iff_exists.mp
        (try_parse_assignment_sufficient (n + 1) s1 (by omega))
      rw [har]
      simp only [Option.some_bind]
      obtain ⟨a1, a2, a3⟩ := try_parse_assignment_progress (n + 1) s1 (ar.1, ar.2)
        (show _ = some (ar.1, ar.2) from har)
      have a1' : ar.2.text = s1.text := a1
      have a2' : s1.index ≤ ar.2.index := a2
      have hla : ar.2.length = s.length := by
        rw [St.length, a1']
        exact hl1
      split
      · rename_i nm v heq
        have hstrict : s1.index + 1 ≤ ar.2.index := a3 nm v heq
        repeat' split
        all_goals exact ih _ _ (by omega)
      · exact ih _ _ (by simp only [length_advance, advance_index]; omega)
    · rfl

end DictifyJs

namespace DictifyJs

/-- C9: termination with cost bounded by input length.  First conjunct: the
driver-loop progress property — an assignment attempt never moves the cursor
backwards or touches the text, and an attempt that records an assignment
strictly advances the cursor (on a failed attempt the driver itself advances one
character), so every iteration of the driver loop strictly advances.  Second
conjunct: a fuel budget linear in the input length — `3·length + 3` combined
steps across the skip/parse/recover passes — always completes the full driver
scan of any finite input: the scan terminates and every character is visited a
bounded number of times. -/
theorem driver_terminates_linear (fuel : Nat) (s : St)
    (r : Option (List Char × Value) × St) (h : try_parse_assignment fuel s = some r) :
    (r.2.text = s.text ∧ s.index ≤ r.2.index ∧
      (∀ nm v, r.1 = some (nm, v) → s.index + 1 ≤ r.2.index)) ∧
    (∀ text : List Char, (parse_file (3 * text.length + 3) text).isSome = true) :=
  ⟨try_parse_assignment_progress fuel s r h,
   fun text => parse_file_loop_sufficient (3 * text.length + 3) (St.mk text 0 0 0) []
     (by show 3 * (text.length - 0) + 3 ≤ 3 * text.length + 3; omega)⟩

/-- Witness for C9 at the assignment `const x = \x7b\x7d`. -/
theorem driver_terminates_linear_witness :
    ((try_parse_assignment 50 (initSt ("const x = \x7b\x7d".toList))).getD
      (none, initSt [])).2.text = (initSt ("const x = \x7b\x7d".toList)).text ∧
    (parse_file (3 * ("const x = \x7b\x7d".toList).length + 3)
      ("const x = \x7b\x7d".toList)).isSome = true := by
  have W := driver_terminates_linear 50 (initSt ("const x = \x7b\x7d".toList))
    ((try_parse_assignment 50 (initSt ("const x = \x7b\x7d".toList))).getD
      (none, initSt [])) rfl
  exact ⟨W.1.1, W.2 ("const x = \x7b\x7d".toList)⟩

end DictifyJs
